import Mathlib

/-!
Verification of the PNG codec and watermark remover in
src/skills/ian-gemini-web/scripts/watermark-remover.ts.

Modelling conventions for the shallow embedding:
* Byte buffers (Uint8Array) are modelled as List ℕ when used as byte
  streams, and as total functions ℕ → ℕ when used as mutable pixel
  buffers (a Uint8Array is zero-initialized, so the initial buffer is
  the constant-0 function).  A store into a Uint8Array truncates its
  value with ToUint8, modelled by reducing mod 256 at the store.
  A read outside the array yields undefined in JS; it is modelled as 0
  here, and every theorem whose verdict could depend on such a read
  carries a length hypothesis that rules the situation out.
* JavaScript numbers used for pixel arithmetic are modelled as ℚ
  (the alpha values and thresholds of the blending code), and indices
  that can go negative are modelled as ℤ.  A TypedArray write at a
  negative index is silently discarded in JS, which the blending model
  reproduces.
* Math.round rounds half toward +∞, i.e. n ↦ ⌊n + 1/2⌋.
* The deflate/inflate collaborator (Bun.deflateSync / Bun.inflateSync)
  is out of scope and is passed in as a function parameter; inflate
  returns none where the real collaborator would throw.
-/

namespace WRem

/-! ## Constants of the watermark remover -/

def ALPHA_THRESHOLD : ℚ := 2 / 1000

def MAX_ALPHA : ℚ := 99 / 100

def LOGO_VALUE : ℚ := 255

/-! ## Watermark configuration and position -/

structure WatermarkConfig where
  logoSize : ℕ
  marginRight : ℕ
  marginBottom : ℕ
deriving DecidableEq

/-- Position fields are ℤ because the source computes them by plain
subtraction, which can go negative on small images. -/
structure WatermarkPosition where
  x : ℤ
  y : ℤ
  width : ℕ
  height : ℕ

def detectWatermarkConfig (imageWidth imageHeight : ℕ) : WatermarkConfig :=
  if imageWidth > 1024 ∧ imageHeight > 1024 then
    ⟨96, 64, 64⟩
  else
    ⟨48, 32, 32⟩

def calculateWatermarkPosition (imageWidth imageHeight : ℕ)
    (config : WatermarkConfig) : WatermarkPosition :=
  { x := (imageWidth : ℤ) - config.marginRight - config.logoSize
    y := (imageHeight : ℤ) - config.marginBottom - config.logoSize
    width := config.logoSize
    height := config.logoSize }

def hasWatermarkArea (width height : ℕ) : Bool :=
  let config := detectWatermarkConfig width height
  let minWidth := config.logoSize + config.marginRight
  let minHeight := config.logoSize + config.marginBottom
  decide (width ≥ minWidth) && decide (height ≥ minHeight)

/-! ## Scanline filters -/

/-- The Paeth predictor, inlined in case 4 of the source's applyFilter
switch: p = left + up - upLeft, pick whichever of left/up/upLeft is
closest to p, ties broken toward left, then up, then upLeft. -/
def paethPredictor (left up upLeft : ℕ) : ℕ :=
  let p : ℤ := (left : ℤ) + up - upLeft
  let pa := (p - left).natAbs
  let pb := (p - up).natAbs
  let pc := (p - upLeft).natAbs
  if pa ≤ pb ∧ pa ≤ pc then left else if pb ≤ pc then up else upLeft

/-- applyFilter from the source decoder: inverse scanline transform.
The source masks with the bitwise operation and 0xff, i.e. mod 256; an
unknown filter type falls to the default branch and returns the byte
unchanged. -/
def applyFilter (filterType current left up upLeft : ℕ) : ℕ :=
  match filterType with
  | 0 => current
  | 1 => (current + left) % 256
  | 2 => (current + up) % 256
  | 3 => (current + (left + up) / 2) % 256
  | 4 => (current + paethPredictor left up upLeft) % 256
  | _ + 5 => current

/-! ## CRC32 -/

/-- One bit step of the table construction:
c = c & 1 ? 0xedb88320 ^ (c >>> 1) : c >>> 1. -/
def crcTableStep (c : ℕ) : ℕ :=
  if c % 2 = 1 then 0xedb88320 ^^^ (c >>> 1) else c >>> 1

/-- crcTable[n], computed by eight bit steps from n (the source builds a
256-entry table by this very iteration; the table is modelled as the
function it tabulates). -/
def crcTable (n : ℕ) : ℕ :=
  crcTableStep^[8] n

/-- crc32 from the source: init 0xffffffff, per byte
crc = crcTable[(crc ^ data[i]) & 0xff] ^ (crc >>> 8), final xor
0xffffffff.  The trailing >>> 0 of the source is the identity on the
value, which stays below 2^32. -/
def crc32 (data : List ℕ) : ℕ :=
  (data.foldl (fun crc b => crcTable ((crc ^^^ b) &&& 255) ^^^ (crc >>> 8)) 0xffffffff)
    ^^^ 0xffffffff

/-- Reference bit-serial CRC-32 (reflected, polynomial 0xEDB88320,
initial and final xor 0xFFFFFFFF): each byte is xored into the register
and eight single-bit steps are applied.  Used to state that the
table-driven crc32 implements the standard reflected CRC-32. -/
def crc32Bitwise (data : List ℕ) : ℕ :=
  (data.foldl (fun crc b => crcTableStep^[8] (crc ^^^ (b &&& 255))) 0xffffffff)
    ^^^ 0xffffffff

/-! ## Reverse alpha blending -/

/-- Math.round on a rational: round half toward positive infinity. -/
def jsRound (q : ℚ) : ℤ :=
  ⌊q + 1 / 2⌋

/-- Math.max(0, Math.min(255, r)) on the rounded value, as the byte
finally stored. -/
def clampByte (r : ℤ) : ℕ :=
  (max 0 (min 255 r)).toNat

/-- The buffer index imgIdx of the blending loop for box pixel
(row, col): ((y + row) * imageWidth + (x + col)) * 4.  It is ℤ because
x and y can be negative on images smaller than the margins. -/
def blendImgIdx (position : WatermarkPosition) (imageWidth : ℕ) (row col : ℕ) : ℤ :=
  ((position.y + row) * imageWidth + (position.x + col)) * 4

/-- One iteration of the inner channel loop (c = 0, 1, 2) of
applyReverseAlphaBlending: read the watermarked byte at imgIdx + c,
invert the blend with the already clamped alpha, round and clamp, and
store the byte back at the same index.  When imgIdx + c is negative, a
JS TypedArray read yields no stored byte and the corresponding write is
silently discarded, so the step leaves the buffer unchanged. -/
def blendChannel (alpha : ℚ) (imgIdx : ℤ) (c : ℕ) (imageData : ℕ → ℕ) : ℕ → ℕ :=
  if 0 ≤ imgIdx + c then
    Function.update imageData (imgIdx + c).toNat
      (clampByte (jsRound
        ((imageData ((imgIdx + c).toNat) - alpha * LOGO_VALUE) / (1 - alpha))))
  else imageData

/-- Body of the per-pixel loop of applyReverseAlphaBlending: skip the
pixel when its mask alpha is below ALPHA_THRESHOLD, otherwise clamp
alpha to MAX_ALPHA and run the channel loop over c = 0, 1, 2. -/
def blendPixel (alphaMap : ℕ → ℚ) (position : WatermarkPosition) (imageWidth : ℕ)
    (row col : ℕ) (imageData : ℕ → ℕ) : ℕ → ℕ :=
  if alphaMap (row * position.width + col) < ALPHA_THRESHOLD then imageData
  else
    (List.range 3).foldl
      (fun d c =>
        blendChannel (min (alphaMap (row * position.width + col)) MAX_ALPHA)
          (blendImgIdx position imageWidth row col) c d)
      imageData

/-- applyReverseAlphaBlending: the nested row/col loops over the
watermark box. -/
def applyReverseAlphaBlending (imageData : ℕ → ℕ) (imageWidth : ℕ)
    (alphaMap : ℕ → ℚ) (position : WatermarkPosition) : ℕ → ℕ :=
  (List.range position.height).foldl
    (fun d row =>
      (List.range position.width).foldl
        (fun d2 col => blendPixel alphaMap position imageWidth row col d2) d)
    imageData

/-- The pixel-level composition performed by removeWatermark between
decoding and re-encoding: select the config from the image dimensions,
compute the watermark position and invert the blend in place.  The
alpha map is a parameter because removeWatermark obtains it from a
bundled asset file (getAlphaMap), which is I/O outside this
embedding. -/
def removeWatermarkPixels (width height : ℕ) (alphaMap : ℕ → ℚ)
    (data : ℕ → ℕ) : ℕ → ℕ :=
  applyReverseAlphaBlending data width alphaMap
    (calculateWatermarkPosition width height (detectWatermarkConfig width height))

/-- The byte the blending loop stores for a watermarked byte v under raw
mask alpha (before the MAX_ALPHA clamp): the claim's
clamp(round((v - a*255) / (1 - a))) with a = min(alpha, 0.99). -/
def blendValue (alpha : ℚ) (v : ℕ) : ℕ :=
  clampByte (jsRound
    (((v : ℚ) - min alpha MAX_ALPHA * LOGO_VALUE) / (1 - min alpha MAX_ALPHA)))

/-- Flat buffer index of channel 0 of box pixel (row, col), for a
position with nonnegative coordinates. -/
def pixelBase (position : WatermarkPosition) (imageWidth row col : ℕ) : ℕ :=
  ((position.y.toNat + row) * imageWidth + (position.x.toNat + col)) * 4

/-! ## PNG decoder -/

/-- Errors of the decode path.  The source has a single explicit throw
('Invalid PNG signature', the FormatError of the spec); a DataView read
past the end of the buffer throws a RangeError; Bun.inflateSync throws
on bad input (the spec's DecompressionError, modelled by the inflate
parameter returning none).  outOfFuel is an artifact of the fuel-based
chunk walk and is proved unreachable for the fuel decodePNG passes. -/
inductive DecodeError where
  | formatError
  | rangeError
  | decompressionError
  | outOfFuel
deriving DecidableEq

structure DecodedImage where
  width : ℕ
  height : ℕ
  data : ℕ → ℕ

/-- State accumulated by the chunk walk of decodePNG: the IHDR fields
and the concatenation of all IDAT payloads in encounter order. -/
structure ChunkState where
  width : ℕ
  height : ℕ
  bitDepth : ℕ
  colorType : ℕ
  idat : List ℕ
deriving DecidableEq

/-- DataView.getUint32 (big-endian): reads 4 bytes at off, throwing
(none) when they extend past the buffer. -/
def readU32 (buffer : List ℕ) (off : ℕ) : Option ℕ :=
  if off + 4 ≤ buffer.length then
    some ((buffer.getD off 0 % 256) * 16777216 + (buffer.getD (off + 1) 0 % 256) * 65536 +
      (buffer.getD (off + 2) 0 % 256) * 256 + buffer.getD (off + 3) 0 % 256)
  else none

/-- The chunk walk of decodePNG: starting at offset 8, read each
chunk's length and 4-byte type; record the IHDR fields, concatenate
IDAT payloads (slice clamps at the end of the buffer, like JS slice),
stop at IEND or at the end of the buffer; advance by 12 + length.
The source's while loop is modelled with fuel; decodePNG passes
buffer.length, which is proved sufficient (the offset grows by at
least 12 per step). -/
def chunkWalk (buffer : List ℕ) : ℕ → ℕ → ChunkState → Except DecodeError ChunkState
  | 0, offset, st =>
    if offset < buffer.length then Except.error DecodeError.outOfFuel else Except.ok st
  | fuel + 1, offset, st =>
    if offset < buffer.length then
      match readU32 buffer offset with
      | none => Except.error DecodeError.rangeError
      | some length =>
        let t0 := buffer.getD (offset + 4) 0 % 256
        let t1 := buffer.getD (offset + 5) 0 % 256
        let t2 := buffer.getD (offset + 6) 0 % 256
        let t3 := buffer.getD (offset + 7) 0 % 256
        if t0 = 73 ∧ t1 = 72 ∧ t2 = 68 ∧ t3 = 82 then
          match readU32 buffer (offset + 8), readU32 buffer (offset + 12) with
          | some w, some h =>
            chunkWalk buffer fuel (offset + 12 + length)
              ⟨w, h, buffer.getD (offset + 16) 0 % 256,
                buffer.getD (offset + 17) 0 % 256, st.idat⟩
          | _, _ => Except.error DecodeError.rangeError
        else if t0 = 73 ∧ t1 = 68 ∧ t2 = 65 ∧ t3 = 84 then
          chunkWalk buffer fuel (offset + 12 + length)
            ⟨st.width, st.height, st.bitDepth, st.colorType,
              st.idat ++ (buffer.drop (offset + 8)).take length⟩
        else if t0 = 73 ∧ t1 = 69 ∧ t2 = 78 ∧ t3 = 68 then
          Except.ok st
        else
          chunkWalk buffer fuel (offset + 12 + length) st
    else Except.ok st

/-- channels = colorType === 6 ? 4 : colorType === 2 ? 3 :
colorType === 4 ? 2 : 1. -/
def pngChannels (colorType : ℕ) : ℕ :=
  if colorType = 6 then 4 else if colorType = 2 then 3 else if colorType = 4 then 2 else 1

/-- Body of the per-pixel unfiltering loop of decodePNG.  Reads the
filter-type byte of row y, the channel bytes of pixel x from the
decompressed stream (scanline[srcIdx+k] = decompressed[scanlineOffset
+ 1 + srcIdx + k]; an out-of-range read is modelled as 0), expands
them to r,g,b,a according to the channel count, and writes the four
output bytes at dstIdx..dstIdx+3, each unfiltered against the
already-reconstructed left/up/upLeft neighbor bytes of the output
buffer (0 when the neighbor index guard leftIdx/upIdx/upLeftIdx is -1,
exactly as in the source).  The pixel's own four writes never touch
its neighbor indices, so the neighbor reads are bound to the buffer
as it was before this pixel.  Stores truncate mod 256 (Uint8Array). -/
def decodePixel (decompressed : List ℕ) (width bytesPerPixel channels : ℕ)
    (y x : ℕ) (data : ℕ → ℕ) : ℕ → ℕ :=
  let scanlineLength := width * bytesPerPixel + 1
  let scanlineOffset := y * scanlineLength
  let filterType := decompressed.getD scanlineOffset 0
  let srcIdx := x * bytesPerPixel
  let sb : ℕ → ℕ := fun k => decompressed.getD (scanlineOffset + 1 + srcIdx + k) 0
  let dstIdx := (y * width + x) * 4
  let r := sb 0
  let g := if channels = 4 ∨ channels = 3 then sb 1 else sb 0
  let b := if channels = 4 ∨ channels = 3 then sb 2 else sb 0
  let a := if channels = 4 then sb 3 else if channels = 2 then sb 1 else 255
  let leftB : ℕ → ℕ := fun k => if 0 < x then data (dstIdx - 4 + k) else 0
  let upB : ℕ → ℕ := fun k => if 0 < y then data (dstIdx - width * 4 + k) else 0
  let upLeftB : ℕ → ℕ := fun k =>
    if 0 < x ∧ 0 < y then data (dstIdx - width * 4 - 4 + k) else 0
  let d0 := Function.update data dstIdx
    (applyFilter filterType r (leftB 0) (upB 0) (upLeftB 0) % 256)
  let d1 := Function.update d0 (dstIdx + 1)
    (applyFilter filterType g (leftB 1) (upB 1) (upLeftB 1) % 256)
  let d2 := Function.update d1 (dstIdx + 2)
    (applyFilter filterType b (leftB 2) (upB 2) (upLeftB 2) % 256)
  Function.update d2 (dstIdx + 3)
    (if 2 ≤ channels ∧ (channels = 4 ∨ channels = 2) then
      applyFilter filterType a (leftB 3) (upB 3) (upLeftB 3) % 256
    else 255)

/-- The nested y/x unfiltering loops of decodePNG, run on the
zero-initialized output buffer (new Uint8Array(width*height*4)). -/
def decodeScanlines (decompressed : List ℕ)
    (width height bytesPerPixel channels : ℕ) : ℕ → ℕ :=
  (List.range height).foldl
    (fun d y =>
      (List.range width).foldl
        (fun d2 x => decodePixel decompressed width bytesPerPixel channels y x d2) d)
    (fun _ => 0)

/-- The same unfiltering pass as decodeScanlines, flattened to a single
pixel counter i = y * width + x processed in increasing order; used to
reason about the nested loops (they are proved equal below). -/
def decodeSteps (decompressed : List ℕ) (width bytesPerPixel channels : ℕ) :
    ℕ → ℕ → (ℕ → ℕ) → (ℕ → ℕ)
  | _, 0, b => b
  | start, count + 1, b =>
    decodeSteps decompressed width bytesPerPixel channels (start + 1) count
      (decodePixel decompressed width bytesPerPixel channels
        (start / width) (start % width) b)

/-- decodePNG: validate the signature (the two DataView reads and the
single explicit throw of the source), walk the chunks, inflate the
concatenated IDAT stream, derive channels and bytes-per-pixel from the
IHDR fields, and unfilter the scanlines. -/
def decodePNG (inflate : List ℕ → Option (List ℕ)) (buffer : List ℕ) :
    Except DecodeError DecodedImage :=
  match readU32 buffer 0 with
  | none => Except.error DecodeError.rangeError
  | some s1 =>
    if s1 ≠ 0x89504e47 then Except.error DecodeError.formatError
    else
      match readU32 buffer 4 with
      | none => Except.error DecodeError.rangeError
      | some s2 =>
        if s2 ≠ 0x0d0a1a0a then Except.error DecodeError.formatError
        else
          match chunkWalk buffer buffer.length 8 ⟨0, 0, 0, 0, []⟩ with
          | Except.error e => Except.error e
          | Except.ok st =>
            match inflate st.idat with
            | none => Except.error DecodeError.decompressionError
            | some decompressed =>
              Except.ok ⟨st.width, st.height,
                decodeScanlines decompressed st.width st.height
                  (st.bitDepth / 8 * pngChannels st.colorType)
                  (pngChannels st.colorType)⟩

/-! ## PNG encoder -/

/-- DataView.setUint32 (big-endian): write the four bytes of
v mod 2^32 at off..off+3. -/
def setU32 (l : List ℕ) (off v : ℕ) : List ℕ :=
  ((((l.set off (v % 4294967296 / 16777216 % 256)).set (off + 1)
    (v % 4294967296 / 65536 % 256)).set (off + 2)
    (v % 4294967296 / 256 % 256)).set (off + 3) (v % 4294967296 % 256))

/-- Uint8Array.prototype.set(src, off): overwrite the region starting
at off with the source bytes (truncated mod 256). -/
def setSeg (l : List ℕ) (off : ℕ) (src : List ℕ) : List ℕ :=
  l.take off ++ src.map (fun b => b % 256) ++ l.drop (off + src.length)

/-- The scanline build loop of encodePNG: for each row a leading
filter byte 0 followed by the row's RGBA bytes (new Uint8Array(...)
truncates each pushed number mod 256). -/
def mkScanlines (width height : ℕ) (data : ℕ → ℕ) : List ℕ :=
  (List.range height).flatMap
    (fun y =>
      0 :: (List.range width).flatMap
        (fun x =>
          [data ((y * width + x) * 4) % 256, data ((y * width + x) * 4 + 1) % 256,
            data ((y * width + x) * 4 + 2) % 256, data ((y * width + x) * 4 + 3) % 256]))

/-- The IHDR block of encodePNG: a 25-byte array written field by
field (length 13, type, big-endian width and height, bit depth 8,
color type 6, compression/filter/interlace 0), its trailing CRC32
computed over slice(4, 21) = type ++ data. -/
def encodeIHDR (width height : ℕ) : List ℕ :=
  let ihdr1 := setU32 (List.replicate 25 0) 0 13
  let ihdr2 := setSeg ihdr1 4 [0x49, 0x48, 0x44, 0x52]
  let ihdr3 := setU32 ihdr2 8 width
  let ihdr4 := setU32 ihdr3 12 height
  let ihdr5 := (((((ihdr4.set 16 8).set 17 6).set 18 0).set 19 0).set 20 0)
  setU32 ihdr5 21 (crc32 ((ihdr5.drop 4).take 17))

/-- The IDAT block of encodePNG: a (12 + compressed.length)-byte array
holding length, type, the compressed stream and its trailing CRC32
over slice(4, 8 + compressed.length) = type ++ data. -/
def encodeIDAT (compressed : List ℕ) : List ℕ :=
  let idat1 := setU32 (List.replicate (12 + compressed.length) 0) 0 compressed.length
  let idat2 := setSeg idat1 4 [0x49, 0x44, 0x41, 0x54]
  let idat3 := setSeg idat2 8 compressed
  setU32 idat3 (8 + compressed.length)
    (crc32 ((idat3.drop 4).take (4 + compressed.length)))

/-- The IEND block of encodePNG: length 0, type, CRC32 of the type. -/
def encodeIEND : List ℕ :=
  let iend1 := setU32 (List.replicate 12 0) 0 0
  let iend2 := setSeg iend1 4 [0x49, 0x45, 0x4e, 0x44]
  setU32 iend2 8 (crc32 ((iend2.drop 4).take 4))

/-- encodePNG: signature, IHDR, one IDAT wrapping the deflated
scanline stream, empty IEND (the three chunk-building blocks of the
source are named encodeIHDR/encodeIDAT/encodeIEND above). -/
def encodePNG (deflate : List ℕ → List ℕ) (width height : ℕ) (data : ℕ → ℕ) : List ℕ :=
  let rawData := mkScanlines width height data
  let compressed := deflate rawData
  let signature : List ℕ := [0x89, 0x50, 0x4e, 0x47, 0x0d, 0x0a, 0x1a, 0x0a]
  signature ++ encodeIHDR width height ++ encodeIDAT compressed ++ encodeIEND

/-! ## Reference descriptions of the emitted byte layout (spec side) -/

def pngSignature : List ℕ := [0x89, 0x50, 0x4e, 0x47, 0x0d, 0x0a, 0x1a, 0x0a]

/-- Big-endian bytes of a u32 value. -/
def be32 (v : ℕ) : List ℕ :=
  [v / 16777216 % 256, v / 65536 % 256, v / 256 % 256, v % 256]

/-- A PNG chunk: length, type, data, crc32 over type ++ data. -/
def mkChunk (type data : List ℕ) : List ℕ :=
  be32 data.length ++ type ++ data ++ be32 (crc32 (type ++ data))

/-! ## Positions of chunk CRC fields (for CRC-independence of decode) -/

/-- The offsets of the 4-byte CRC fields of the chunks, as laid out by
the same walk decodePNG performs (walk ends where the walk ends). -/
def crcOffsets (buffer : List ℕ) : ℕ → ℕ → List ℕ
  | 0, _ => []
  | fuel + 1, offset =>
    if offset < buffer.length then
      match readU32 buffer offset with
      | none => []
      | some length =>
        let t0 := buffer.getD (offset + 4) 0 % 256
        let t1 := buffer.getD (offset + 5) 0 % 256
        let t2 := buffer.getD (offset + 6) 0 % 256
        let t3 := buffer.getD (offset + 7) 0 % 256
        if t0 = 73 ∧ t1 = 69 ∧ t2 = 78 ∧ t3 = 68 then
          [offset + 8 + length]
        else
          (offset + 8 + length) :: crcOffsets buffer fuel (offset + 12 + length)
    else []

/-- All byte positions inside some chunk's CRC field. -/
def crcBytes (buffer : List ℕ) : List ℕ :=
  (crcOffsets buffer buffer.length 8).flatMap (fun o => [o, o + 1, o + 2, o + 3])

/-- Two buffers differ at most in the CRC fields of their chunks. -/
def differOnlyInCrc (b1 b2 : List ℕ) : Bool :=
  decide (b1.length = b2.length) &&
    (List.range b1.length).all
      (fun i => decide (i ∈ crcBytes b1) || decide (b1.getD i 0 = b2.getD i 0))

/-- Every IHDR chunk met by the walk declares a length of at least 10,
so the fixed-offset IHDR field reads (offsets 8..17 into the chunk)
stay inside its data region. -/
def ihdrLengthsOK (buffer : List ℕ) : ℕ → ℕ → Bool
  | 0, _ => true
  | fuel + 1, offset =>
    if offset < buffer.length then
      match readU32 buffer offset with
      | none => true
      | some length =>
        let t0 := buffer.getD (offset + 4) 0 % 256
        let t1 := buffer.getD (offset + 5) 0 % 256
        let t2 := buffer.getD (offset + 6) 0 % 256
        let t3 := buffer.getD (offset + 7) 0 % 256
        if t0 = 73 ∧ t1 = 72 ∧ t2 = 68 ∧ t3 = 82 then
          decide (10 ≤ length) && ihdrLengthsOK buffer fuel (offset + 12 + length)
        else if t0 = 73 ∧ t1 = 69 ∧ t2 = 78 ∧ t3 = 68 then
          true
        else
          ihdrLengthsOK buffer fuel (offset + 12 + length)
    else true

/-- Whether byte index j of the RGBA buffer of a width-wide image
belongs to a pixel inside the watermark box of the given position. -/
def insideBox (position : WatermarkPosition) (width j : ℕ) : Prop :=
  position.y ≤ ((j / 4 / width : ℕ) : ℤ) ∧
    ((j / 4 / width : ℕ) : ℤ) < position.y + position.height ∧
    position.x ≤ ((j / 4 % width : ℕ) : ℤ) ∧
    ((j / 4 % width : ℕ) : ℤ) < position.x + position.width

instance insideBoxDecidable (position : WatermarkPosition) (width j : ℕ) :
    Decidable (insideBox position width j) := by
  unfold insideBox
  infer_instance

/-! ## Pointwise characterization of the blending loops -/

lemma foldl_buf_miss {α : Type} (f : (ℕ → ℕ) → α → (ℕ → ℕ)) (l : List α) (j : ℕ)
    (h : ∀ a ∈ l, ∀ d : ℕ → ℕ, f d a j = d j) :
    ∀ d : ℕ → ℕ, (l.foldl f d) j = d j := by
  induction l with
  | nil => intro d; rfl
  | cons a t ih =>
    intro d
    rw [List.foldl_cons, ih (fun b hb => h b (List.mem_cons_of_mem a hb)),
      h a (List.mem_cons_self a t)]

lemma foldl_buf_hit {α : Type} (f : (ℕ → ℕ) → α → (ℕ → ℕ)) (l : List α) (j : ℕ)
    (a₀ : α) (g : ℕ → ℕ) (hnd : l.Nodup) (hmem : a₀ ∈ l)
    (hhit : ∀ d : ℕ → ℕ, f d a₀ j = g (d j))
    (hmiss : ∀ a ∈ l, a ≠ a₀ → ∀ d : ℕ → ℕ, f d a j = d j) :
    ∀ d : ℕ → ℕ, (l.foldl f d) j = g (d j) := by
  induction l with
  | nil => cases hmem
  | cons a t ih =>
    intro d
    rw [List.foldl_cons]
    by_cases ha : a = a₀
    · subst ha
      have hnotmem : a ∉ t := (List.nodup_cons.mp hnd).1
      have hmiss' : ∀ b ∈ t, ∀ d : ℕ → ℕ, f d b j = d j := by
        intro b hb
        exact hmiss b (List.mem_cons_of_mem a hb) (fun he => hnotmem (he ▸ hb))
      rw [foldl_buf_miss f t j hmiss' (f d a), hhit d]
    · have hmem' : a₀ ∈ t := by
        rcases List.mem_cons.mp hmem with h | h
        · exact absurd h.symm ha
        · exact h
      rw [ih (List.nodup_cons.mp hnd).2 hmem'
          (fun b hb hne => hmiss b (List.mem_cons_of_mem a hb) hne) (f d a),
        hmiss a (List.mem_cons_self a t) ha d]

lemma blendChannel_apply (alpha : ℚ) (imgIdx : ℤ) (c : ℕ) (d : ℕ → ℕ) (j : ℕ) :
    blendChannel alpha imgIdx c d j =
      if (j : ℤ) = imgIdx + c then
        clampByte (jsRound (((d j : ℚ) - alpha * LOGO_VALUE) / (1 - alpha)))
      else d j := by
  unfold blendChannel
  by_cases h0 : 0 ≤ imgIdx + (c : ℤ)
  · rw [if_pos h0]
    by_cases hj : (j : ℤ) = imgIdx + c
    · have hi : (imgIdx + (c : ℤ)).toNat = j := by omega
      rw [if_pos hj, hi, Function.update_same]
    · have hne : j ≠ (imgIdx + (c : ℤ)).toNat := by omega
      rw [if_neg hj, Function.update_noteq hne]
  · rw [if_neg h0]
    have hj : ¬((j : ℤ) = imgIdx + c) := by omega
    rw [if_neg hj]

lemma blendPixel_miss (alphaMap : ℕ → ℚ) (position : WatermarkPosition)
    (imageWidth row col : ℕ) (j : ℕ)
    (h : alphaMap (row * position.width + col) < ALPHA_THRESHOLD ∨
      ∀ c : ℕ, c < 3 → (j : ℤ) ≠ blendImgIdx position imageWidth row col + c) :
    ∀ d : ℕ → ℕ, blendPixel alphaMap position imageWidth row col d j = d j := by
  intro d
  unfold blendPixel
  by_cases hα : alphaMap (row * position.width + col) < ALPHA_THRESHOLD
  · rw [if_pos hα]
  · rw [if_neg hα]
    rcases h with h | h
    · exact absurd h hα
    · refine foldl_buf_miss _ _ _ ?_ d
      intro c hc d2
      rw [blendChannel_apply, if_neg (h c (List.mem_range.mp hc))]

lemma blendPixel_hit (alphaMap : ℕ → ℚ) (position : WatermarkPosition)
    (imageWidth row col c : ℕ) (j : ℕ)
    (hα : ¬ alphaMap (row * position.width + col) < ALPHA_THRESHOLD)
    (hc : c < 3)
    (hj : (j : ℤ) = blendImgIdx position imageWidth row col + c)
    (hcinj : ∀ c' : ℕ, c' < 3 → c' ≠ c →
      (j : ℤ) ≠ blendImgIdx position imageWidth row col + c') :
    ∀ d : ℕ → ℕ,
      blendPixel alphaMap position imageWidth row col d j =
        blendValue (alphaMap (row * position.width + col)) (d j) := by
  intro d
  unfold blendPixel
  rw [if_neg hα]
  refine foldl_buf_hit _ _ _ c _ (List.nodup_range _) (List.mem_range.mpr hc) ?_ ?_ d
  · intro d2
    rw [blendChannel_apply, if_pos hj]
    rfl
  · intro c' hc' hne d2
    rw [blendChannel_apply, if_neg (hcinj c' (List.mem_range.mp hc') hne)]

lemma applyReverseAlphaBlending_miss (alphaMap : ℕ → ℚ)
    (position : WatermarkPosition) (imageWidth : ℕ) (j : ℕ)
    (h : ∀ row < position.height, ∀ col < position.width,
      alphaMap (row * position.width + col) < ALPHA_THRESHOLD ∨
        ∀ c : ℕ, c < 3 → (j : ℤ) ≠ blendImgIdx position imageWidth row col + c) :
    ∀ d : ℕ → ℕ, applyReverseAlphaBlending d imageWidth alphaMap position j = d j := by
  intro d
  unfold applyReverseAlphaBlending
  refine foldl_buf_miss _ _ _ ?_ d
  intro row hrow d2
  refine foldl_buf_miss _ _ _ ?_ d2
  intro col hcol d3
  exact blendPixel_miss alphaMap position imageWidth row col j
    (h row (List.mem_range.mp hrow) col (List.mem_range.mp hcol)) d3

lemma applyReverseAlphaBlending_hit (alphaMap : ℕ → ℚ)
    (position : WatermarkPosition) (imageWidth row col c : ℕ) (j : ℕ)
    (hrow : row < position.height) (hcol : col < position.width) (hc : c < 3)
    (hα : ¬ alphaMap (row * position.width + col) < ALPHA_THRESHOLD)
    (hj : (j : ℤ) = blendImgIdx position imageWidth row col + c)
    (hmiss : ∀ row' < position.height, ∀ col' < position.width, ∀ c' < 3,
      (row', col', c') ≠ (row, col, c) →
        (j : ℤ) ≠ blendImgIdx position imageWidth row' col' + c') :
    ∀ d : ℕ → ℕ,
      applyReverseAlphaBlending d imageWidth alphaMap position j =
        blendValue (alphaMap (row * position.width + col)) (d j) := by
  intro d
  unfold applyReverseAlphaBlending
  refine foldl_buf_hit _ _ _ row _ (List.nodup_range _) (List.mem_range.mpr hrow) ?_ ?_ d
  · intro d2
    refine foldl_buf_hit _ _ _ col _ (List.nodup_range _) (List.mem_range.mpr hcol) ?_ ?_ d2
    · intro d3
      exact blendPixel_hit alphaMap position imageWidth row col c j hα hc hj
        (fun c' hc' hne =>
          hmiss row hrow col hcol c' hc'
            (fun he => absurd (congrArg (fun t => t.2.2) he) hne)) d3
    · intro col' hcol' hne d3
      refine blendPixel_miss alphaMap position imageWidth row col' j (Or.inr ?_) d3
      intro c' hc'
      exact hmiss row hrow col' (List.mem_range.mp hcol') c' hc'
        (fun he => absurd (congrArg (fun t => t.2.1) he) hne)
  · intro row' hrow' hne d2
    refine foldl_buf_miss _ _ _ ?_ d2
    intro col' hcol' d3
    refine blendPixel_miss alphaMap position imageWidth row' col' j (Or.inr ?_) d3
    intro c' hc'
    exact hmiss row' (List.mem_range.mp hrow') col' (List.mem_range.mp hcol') c' hc'
      (fun he => absurd (congrArg (fun t => t.1) he) hne)

lemma row_mul_inj (W y1 u1 y2 u2 : ℕ) (hu1 : u1 < W) (hu2 : u2 < W)
    (h : y1 * W + u1 = y2 * W + u2) : y1 = y2 ∧ u1 = u2 := by
  rcases Nat.lt_trichotomy y1 y2 with hlt | heq | hgt
  · have hm : (y1 + 1) * W ≤ y2 * W := Nat.mul_le_mul_right W (by omega)
    rw [Nat.add_mul, Nat.one_mul] at hm
    set A := y1 * W
    set B := y2 * W
    omega
  · subst heq
    set A := y1 * W
    omega
  · have hm : (y2 + 1) * W ≤ y1 * W := Nat.mul_le_mul_right W (by omega)
    rw [Nat.add_mul, Nat.one_mul] at hm
    set A := y1 * W
    set B := y2 * W
    omega

lemma pixelIndex_inj (W X Y w : ℕ) (hw : X + w ≤ W)
    (r1 c1 k1 r2 c2 k2 : ℕ) (h1 : c1 < w) (h2 : c2 < w) (hk1 : k1 < 4) (hk2 : k2 < 4)
    (heq : ((Y + r1) * W + (X + c1)) * 4 + k1 = ((Y + r2) * W + (X + c2)) * 4 + k2) :
    r1 = r2 ∧ c1 = c2 ∧ k1 = k2 := by
  have hab : (Y + r1) * W + (X + c1) = (Y + r2) * W + (X + c2) ∧ k1 = k2 := by
    set A := (Y + r1) * W + (X + c1)
    set B := (Y + r2) * W + (X + c2)
    omega
  obtain ⟨hAB, hk⟩ := hab
  obtain ⟨hy, hu⟩ := row_mul_inj W (Y + r1) (X + c1) (Y + r2) (X + c2)
    (by omega) (by omega) hAB
  omega

/-! ## CRC32 lemmas: the table-driven loop is the bit-serial CRC -/

lemma xor_shiftRight_one (a b : ℕ) : (a ^^^ b) >>> 1 = (a >>> 1) ^^^ (b >>> 1) := by
  apply Nat.eq_of_testBit_eq
  intro i
  simp [Nat.testBit_shiftRight, Nat.testBit_xor]

lemma xor_mod_two_of_even (a b : ℕ) (hb : b % 2 = 0) : (a ^^^ b) % 2 = a % 2 := by
  rcases Nat.mod_two_eq_zero_or_one a with h | h
  · have hx : ¬((a ^^^ b) % 2 = 1) := by
      rw [Nat.xor_mod_two_eq_one]
      simp [h, hb]
    omega
  · have hx : (a ^^^ b) % 2 = 1 := by
      rw [Nat.xor_mod_two_eq_one]
      simp [h, hb]
    omega

lemma crcTableStep_xor_even (a b : ℕ) (hb : b % 2 = 0) :
    crcTableStep (a ^^^ b) = crcTableStep a ^^^ (b >>> 1) := by
  unfold crcTableStep
  rw [xor_mod_two_of_even a b hb]
  rcases Nat.mod_two_eq_zero_or_one a with h | h
  · simp [h, xor_shiftRight_one]
  · simp [h, xor_shiftRight_one, Nat.xor_assoc]

lemma crcTableStep_iterate_shifted (k : ℕ) :
    ∀ x h : ℕ, crcTableStep^[k] (x ^^^ (h <<< k)) = crcTableStep^[k] x ^^^ h := by
  induction k with
  | zero => intro x h; simp
  | succ k ih =>
    intro x h
    have heven : (h <<< (k + 1)) % 2 = 0 := by
      rw [Nat.shiftLeft_eq, pow_succ, ← Nat.mul_assoc]
      exact Nat.mul_mod_left _ 2
    rw [Function.iterate_succ_apply, Function.iterate_succ_apply,
      crcTableStep_xor_even _ _ heven]
    have hsh : (h <<< (k + 1)) >>> 1 = h <<< k := by
      rw [Nat.shiftLeft_eq, Nat.shiftLeft_eq, Nat.shiftRight_succ, Nat.shiftRight_zero,
        pow_succ]
      rw [← Nat.mul_assoc]
      exact Nat.mul_div_cancel _ (by norm_num)
    rw [hsh, ih]

lemma low_xor_high_shift (x : ℕ) : (x &&& 255) ^^^ ((x >>> 8) <<< 8) = x := by
  apply Nat.eq_of_testBit_eq
  intro i
  have h255 : (255 : ℕ) = 2 ^ 8 - 1 := by norm_num
  simp only [Nat.testBit_xor, Nat.testBit_and, Nat.testBit_shiftLeft,
    Nat.testBit_shiftRight, h255, Nat.testBit_two_pow_sub_one]
  by_cases hi : i < 8
  · have : ¬(8 ≤ i) := by omega
    simp [hi, this]
  · have h8 : 8 ≤ i := by omega
    have : 8 + (i - 8) = i := by omega
    simp [hi, h8, this]

lemma crcTableStep_iterate_split (x : ℕ) :
    crcTableStep^[8] x = crcTableStep^[8] (x &&& 255) ^^^ (x >>> 8) := by
  conv_lhs => rw [← low_xor_high_shift x]
  exact crcTableStep_iterate_shifted 8 (x &&& 255) (x >>> 8)

lemma and_255_xor (crc b : ℕ) : (crc ^^^ (b &&& 255)) &&& 255 = (crc ^^^ b) &&& 255 := by
  apply Nat.eq_of_testBit_eq
  intro i
  have h255 : (255 : ℕ) = 2 ^ 8 - 1 := by norm_num
  simp only [Nat.testBit_and, Nat.testBit_xor, h255, Nat.testBit_two_pow_sub_one]
  by_cases hi : i < 8 <;> simp [hi]

lemma shiftRight_eight_xor_low (crc b : ℕ) :
    (crc ^^^ (b &&& 255)) >>> 8 = crc >>> 8 := by
  apply Nat.eq_of_testBit_eq
  intro i
  have hlt : b &&& 255 < 256 := by
    have : b &&& 255 ≤ 255 := Nat.and_le_right
    omega
  have hbit : (b &&& 255).testBit (8 + i) = false := by
    apply Nat.testBit_lt_two_pow
    calc b &&& 255 < 256 := hlt
    _ = 2 ^ 8 := by norm_num
    _ ≤ 2 ^ (8 + i) := Nat.pow_le_pow_right (by norm_num) (by omega)
  simp [Nat.testBit_shiftRight, Nat.testBit_xor, hbit]

lemma crc32_byte_step (crc b : ℕ) :
    crcTable ((crc ^^^ b) &&& 255) ^^^ (crc >>> 8) =
      crcTableStep^[8] (crc ^^^ (b &&& 255)) := by
  rw [crcTableStep_iterate_split (crc ^^^ (b &&& 255)), and_255_xor,
    shiftRight_eight_xor_low]
  rfl

lemma crc32_fold_eq (data : List ℕ) : ∀ crc : ℕ,
    data.foldl (fun crc b => crcTable ((crc ^^^ b) &&& 255) ^^^ (crc >>> 8)) crc =
      data.foldl (fun crc b => crcTableStep^[8] (crc ^^^ (b &&& 255))) crc := by
  induction data with
  | nil => intro crc; rfl
  | cons b t ih =>
    intro crc
    simp only [List.foldl_cons]
    rw [crc32_byte_step]
    exact ih _

lemma crc32_eq_bitwise (data : List ℕ) : crc32 data = crc32Bitwise data := by
  unfold crc32 crc32Bitwise
  rw [crc32_fold_eq]

/-- C8: crc32 implements the reflected-table CRC-32 with polynomial
0xEDB88320 and initial/final xor 0xFFFFFFFF: it agrees with the
bit-serial reflected CRC-32 on every input, crc32 of the empty buffer
is 0, and crc32 of the ASCII bytes of the IEND tag (73,69,78,68) is
the PNG reference constant 0xAE426082. -/
theorem c8_crc32 :
    crc32 [] = 0 ∧ crc32 [73, 69, 78, 68] = 0xAE426082 ∧
      ∀ data : List ℕ, crc32 data = crc32Bitwise data :=
  ⟨by decide, by decide, crc32_eq_bitwise⟩

/-- C6: hasWatermarkArea width height is true iff the image is at least
logoSize+marginRight wide and logoSize+marginBottom tall for the config
selected by those same dimensions; hasWatermarkArea 40 40 is false and
hasWatermarkArea 100 100 is true. -/
theorem c6_hasWatermarkArea :
    (∀ width height : ℕ,
      hasWatermarkArea width height = true ↔
        ((detectWatermarkConfig width height).logoSize +
            (detectWatermarkConfig width height).marginRight ≤ width ∧
          (detectWatermarkConfig width height).logoSize +
            (detectWatermarkConfig width height).marginBottom ≤ height)) ∧
      hasWatermarkArea 40 40 = false ∧ hasWatermarkArea 100 100 = true := by
  refine ⟨fun width height => ?_, by decide, by decide⟩
  simp [hasWatermarkArea]

/-- C10: a scanline whose leading filter-type byte is greater than 4
falls into the default branch of applyFilter, which behaves exactly
like filter type 0 (None) and passes the channel byte through
unchanged, so the decoder does not fail on invalid filter bytes. -/
theorem c10_invalid_filter (filterType : ℕ) (h : 4 < filterType) :
    ∀ current left up upLeft : ℕ,
      applyFilter filterType current left up upLeft = current ∧
        applyFilter filterType current left up upLeft =
          applyFilter 0 current left up upLeft := by
  intro current left up upLeft
  obtain ⟨k, rfl⟩ : ∃ k, filterType = k + 5 := ⟨filterType - 5, by omega⟩
  exact ⟨rfl, rfl⟩

/-! ## Frame and inversion properties of the blending -/

lemma hasWatermarkArea_le (width height : ℕ)
    (h : hasWatermarkArea width height = true) :
    (detectWatermarkConfig width height).logoSize +
        (detectWatermarkConfig width height).marginRight ≤ width ∧
      (detectWatermarkConfig width height).logoSize +
        (detectWatermarkConfig width height).marginBottom ≤ height := by
  unfold hasWatermarkArea at h
  simp only [Bool.and_eq_true, decide_eq_true_eq, ge_iff_le] at h
  exact h

lemma applyReverseAlphaBlending_outside (alphaMap : ℕ → ℚ)
    (position : WatermarkPosition) (W : ℕ) (j : ℕ) (data : ℕ → ℕ)
    (hx : 0 ≤ position.x) (hy : 0 ≤ position.y)
    (hxw : position.x + position.width ≤ (W : ℤ))
    (hout : ¬ insideBox position W j) :
    applyReverseAlphaBlending data W alphaMap position j = data j := by
  refine applyReverseAlphaBlending_miss _ _ _ _ ?_ data
  intro r hr cl hcl
  right
  intro c hc heq
  set X := position.x.toNat with hX
  set Y := position.y.toNat with hY
  have hx' : position.x = (X : ℤ) := (Int.toNat_of_nonneg hx).symm
  have hy' : position.y = (Y : ℤ) := (Int.toNat_of_nonneg hy).symm
  unfold blendImgIdx at heq
  rw [hx', hy'] at heq
  have heqn : j = ((Y + r) * W + (X + cl)) * 4 + c := by
    have : ((j : ℕ) : ℤ) = ((((Y + r) * W + (X + cl)) * 4 + c : ℕ) : ℤ) := by
      rw [heq]
      push_cast
      ring
    exact_mod_cast this
  have hXcl : X + cl < W := by omega
  have hW : 0 < W := by omega
  have hj4 : j / 4 = (Y + r) * W + (X + cl) := by omega
  have hmod : j / 4 % W = X + cl := by
    rw [hj4, Nat.add_comm ((Y + r) * W) (X + cl), Nat.add_mul_mod_self_right]
    exact Nat.mod_eq_of_lt hXcl
  have hdiv : j / 4 / W = Y + r := by
    rw [hj4, Nat.add_comm ((Y + r) * W) (X + cl), Nat.add_mul_div_right _ _ hW,
      Nat.div_eq_of_lt hXcl, Nat.zero_add]
  refine hout ⟨?_, ?_, ?_, ?_⟩
  · rw [hdiv, hy']
    exact_mod_cast Nat.le_add_right Y r
  · rw [hdiv, hy']
    push_cast
    omega
  · rw [hmod, hx']
    exact_mod_cast Nat.le_add_right X cl
  · rw [hmod, hx']
    push_cast
    omega

/-- C5: removeWatermark modifies, in the decoded pixel buffer, only the
R, G, B bytes of pixels inside the computed watermark box: every
alpha-channel byte (buffer index congruent to 3 mod 4) is unchanged
unconditionally, and — whenever the image is large enough to contain
the watermark area, so that the computed box lies inside the image —
every byte whose pixel lies outside the box is unchanged. -/
theorem c5_frame_effect (width height : ℕ) (alphaMap : ℕ → ℚ) (data : ℕ → ℕ) :
    (∀ j : ℕ, j % 4 = 3 →
      removeWatermarkPixels width height alphaMap data j = data j) ∧
    (hasWatermarkArea width height = true →
      ∀ j : ℕ,
        ¬ insideBox
            (calculateWatermarkPosition width height
              (detectWatermarkConfig width height)) width j →
          removeWatermarkPixels width height alphaMap data j = data j) := by
  unfold removeWatermarkPixels
  constructor
  · intro j hj
    refine applyReverseAlphaBlending_miss _ _ _ _ ?_ data
    intro r hr cl hcl
    right
    intro c hc heq
    unfold blendImgIdx at heq
    generalize ((calculateWatermarkPosition width height
        (detectWatermarkConfig width height)).y + (r : ℤ)) * (width : ℤ) +
        ((calculateWatermarkPosition width height
          (detectWatermarkConfig width height)).x + (cl : ℤ)) = z at heq
    omega
  · intro hWA j hout
    have hWA' := hasWatermarkArea_le width height hWA
    refine applyReverseAlphaBlending_outside alphaMap _ width j data ?_ ?_ ?_ hout
    · simp only [calculateWatermarkPosition]
      omega
    · simp only [calculateWatermarkPosition]
      omega
    · simp only [calculateWatermarkPosition]
      omega

/-- C5 witness: a 100 by 100 image (box corner at (20,20)); the alpha
byte of pixel 0 and byte 0 of pixel 0 (outside the box) both keep their
value 5. -/
theorem c5_frame_effect_witness :
    removeWatermarkPixels 100 100 (fun _ => 1) (fun _ => 5) 3 = 5 ∧
      removeWatermarkPixels 100 100 (fun _ => 1) (fun _ => 5) 0 = 5 := by
  have h := c5_frame_effect 100 100 (fun _ => 1) (fun _ => 5)
  exact ⟨h.1 3 (by decide), h.2 (by decide) 0 (by decide)⟩

/-- C1: for every pixel of the watermark box whose mask alpha is at
least ALPHA_THRESHOLD = 0.002, applyReverseAlphaBlending replaces each
of the three R, G, B bytes by clamp(round((watermarked - a*255)/(1-a)))
with a = min(alpha, 0.99) (blendValue); a pixel whose mask alpha is
below the threshold keeps all four of its bytes bit-identical.  Stated
for a watermark box lying inside the image (nonnegative corner, right
edge within the row), the situation removeWatermark produces on every
image that has the watermark area.  In particular (see the witness)
with alpha = 0.5 a watermarked byte 255 maps to 255 and a watermarked
byte 0 maps to 0. -/
theorem c1_reverse_alpha_blending (imageData : ℕ → ℕ) (imageWidth : ℕ)
    (alphaMap : ℕ → ℚ) (position : WatermarkPosition)
    (hx : 0 ≤ position.x) (hy : 0 ≤ position.y)
    (hxw : position.x + position.width ≤ (imageWidth : ℤ))
    (row col : ℕ) (hrow : row < position.height) (hcol : col < position.width) :
    (ALPHA_THRESHOLD ≤ alphaMap (row * position.width + col) →
      ∀ c : ℕ, c < 3 →
        applyReverseAlphaBlending imageData imageWidth alphaMap position
            (pixelBase position imageWidth row col + c) =
          blendValue (alphaMap (row * position.width + col))
            (imageData (pixelBase position imageWidth row col + c))) ∧
    (alphaMap (row * position.width + col) < ALPHA_THRESHOLD →
      ∀ c : ℕ, c < 4 →
        applyReverseAlphaBlending imageData imageWidth alphaMap position
            (pixelBase position imageWidth row col + c) =
          imageData (pixelBase position imageWidth row col + c)) := by
  set X := position.x.toNat with hXdef
  set Y := position.y.toNat with hYdef
  have hx' : position.x = (X : ℤ) := (Int.toNat_of_nonneg hx).symm
  have hy' : position.y = (Y : ℤ) := (Int.toNat_of_nonneg hy).symm
  have hXw : X + position.width ≤ imageWidth := by omega
  have hbase : pixelBase position imageWidth row col =
      ((Y + row) * imageWidth + (X + col)) * 4 := rfl
  have hidx : ∀ r cl k : ℕ, blendImgIdx position imageWidth r cl + (k : ℤ) =
      ((((Y + r) * imageWidth + (X + cl)) * 4 + k : ℕ) : ℤ) := by
    intro r cl k
    unfold blendImgIdx
    rw [hx', hy']
    push_cast
    ring
  have hj : ∀ c : ℕ, ((pixelBase position imageWidth row col + c : ℕ) : ℤ) =
      blendImgIdx position imageWidth row col + c := by
    intro c
    rw [hidx row col c, hbase]
  have hne : ∀ c : ℕ, c < 4 → ∀ r' cl' c' : ℕ,
      r' < position.height → cl' < position.width → c' < 3 →
      (r', cl', c') ≠ (row, col, c) →
      ((pixelBase position imageWidth row col + c : ℕ) : ℤ) ≠
        blendImgIdx position imageWidth r' cl' + c' := by
    intro c hc r' cl' c' hr' hcl' hc' hnet heq
    rw [hidx r' cl' c', hbase] at heq
    have heqn : ((Y + row) * imageWidth + (X + col)) * 4 + c =
        ((Y + r') * imageWidth + (X + cl')) * 4 + c' := by
      exact_mod_cast heq
    obtain ⟨h1, h2, h3⟩ := pixelIndex_inj imageWidth X Y position.width hXw
      row col c r' cl' c' hcol hcl' hc (by omega) heqn
    exact hnet (by rw [← h1, ← h2, ← h3])
  constructor
  · intro hα c hc3
    have hαn : ¬ alphaMap (row * position.width + col) < ALPHA_THRESHOLD :=
      not_lt.mpr hα
    exact applyReverseAlphaBlending_hit alphaMap position imageWidth row col c
      (pixelBase position imageWidth row col + c) hrow hcol hc3 hαn (hj c)
      (fun r' hr' cl' hcl' c' hc' hnet =>
        hne c (by omega) r' cl' c' hr' hcl' hc' hnet) imageData
  · intro hα c hc4
    refine applyReverseAlphaBlending_miss _ _ _ _ ?_ imageData
    intro r' hr' cl' hcl'
    by_cases hsame : (r', cl') = (row, col)
    · left
      have h1 : r' = row := congrArg (fun t => t.1) hsame
      have h2 : cl' = col := congrArg (fun t => t.2) hsame
      rw [h1, h2]
      exact hα
    · right
      intro c' hc'
      exact hne c hc4 r' cl' c' hr' hcl' hc'
        (fun he => hsame (congrArg (fun t => (t.1, t.2.1)) he))

/-- C1 witness: a 1 by 1 box at the origin of a width-1 image, mask
alpha 0.5: watermarked byte 255 recovers to 255 and watermarked byte 0
recovers to 0 (clamped from -255). -/
theorem c1_reverse_alpha_blending_witness :
    applyReverseAlphaBlending (fun n => if n = 0 then 255 else 0) 1
        (fun _ => 1 / 2) ⟨0, 0, 1, 1⟩ 0 = 255 ∧
      applyReverseAlphaBlending (fun n => if n = 0 then 255 else 0) 1
        (fun _ => 1 / 2) ⟨0, 0, 1, 1⟩ 1 = 0 := by
  have h := c1_reverse_alpha_blending (fun n => if n = 0 then 255 else 0) 1
    (fun _ => 1 / 2) ⟨0, 0, 1, 1⟩ (by decide) (by decide) (by decide)
    0 0 (by decide) (by decide)
  have hth : ALPHA_THRESHOLD ≤
      (fun _ : ℕ => (1 : ℚ) / 2)
        (0 * (⟨0, 0, 1, 1⟩ : WatermarkPosition).width + 0) := by
    norm_num [ALPHA_THRESHOLD]
  have h0 := h.1 hth 0 (by decide)
  have h1 := h.1 hth 1 (by decide)
  have hv255 : blendValue (1 / 2) 255 = 255 := by
    unfold blendValue clampByte jsRound MAX_ALPHA LOGO_VALUE
    rw [show min ((1 : ℚ) / 2) (99 / 100) = 1 / 2 by norm_num]
    rw [show ((((255 : ℕ) : ℚ) - 1 / 2 * 255) / (1 - 1 / 2) + 1 / 2) = 511 / 2 by
      push_cast; norm_num]
    rw [show ⌊(511 : ℚ) / 2⌋ = 255 from
      Int.floor_eq_iff.mpr (by constructor <;> norm_num)]
    decide
  have hv0 : blendValue (1 / 2) 0 = 0 := by
    unfold blendValue clampByte jsRound MAX_ALPHA LOGO_VALUE
    rw [show min ((1 : ℚ) / 2) (99 / 100) = 1 / 2 by norm_num]
    rw [show ((((0 : ℕ) : ℚ) - 1 / 2 * 255) / (1 - 1 / 2) + 1 / 2) = -509 / 2 by
      push_cast; norm_num]
    rw [show ⌊(-509 : ℚ) / 2⌋ = -255 from
      Int.floor_eq_iff.mpr (by constructor <;> norm_num)]
    decide
  exact ⟨h0.trans hv255, h1.trans hv0⟩

/-- C10 witness: filter type 5 on a concrete byte. -/
theorem c10_invalid_filter_witness :
    4 < 5 ∧
      (applyFilter 5 7 1 2 3 = 7 ∧ applyFilter 5 7 1 2 3 = applyFilter 0 7 1 2 3) :=
  ⟨by decide, c10_invalid_filter 5 (by decide) 7 1 2 3⟩

/-! ## List indexing helpers -/

lemma getD_append_len {α : Type} (l1 l2 : List α) (k : ℕ) (d : α) :
    (l1 ++ l2).getD (l1.length + k) d = l2.getD k d := by
  induction l1 with
  | nil => simp
  | cons a t ih =>
    rw [List.cons_append, List.length_cons,
      show t.length + 1 + k = (t.length + k) + 1 by omega, List.getD_cons_succ, ih]

lemma getD_append_lt {α : Type} (l1 l2 : List α) (k : ℕ) (h : k < l1.length) (d : α) :
    (l1 ++ l2).getD k d = l1.getD k d := by
  induction l1 generalizing k with
  | nil => simp at h
  | cons a t ih =>
    cases k with
    | zero => simp
    | succ k =>
      rw [List.cons_append, List.getD_cons_succ, List.getD_cons_succ,
        ih k (by simpa using h)]

lemma drop_append_len {α : Type} (l1 l2 : List α) (k : ℕ) :
    (l1 ++ l2).drop (l1.length + k) = l2.drop k := by
  induction l1 with
  | nil => simp
  | cons a t ih =>
    rw [List.cons_append, List.length_cons,
      show t.length + 1 + k = (t.length + k) + 1 by omega, List.drop_succ_cons, ih]

lemma take_append_len {α : Type} (l1 l2 : List α) (k : ℕ) :
    (l1 ++ l2).take (l1.length + k) = l1 ++ l2.take k := by
  induction l1 with
  | nil => simp
  | cons a t ih =>
    rw [List.cons_append, List.length_cons,
      show t.length + 1 + k = (t.length + k) + 1 by omega, List.take_succ_cons, ih,
      List.cons_append]

lemma set_append_len {α : Type} (l1 l2 : List α) (k : ℕ) (v : α) :
    (l1 ++ l2).set (l1.length + k) v = l1 ++ l2.set k v := by
  rw [List.set_append_right _ _ (by omega), Nat.add_sub_cancel_left]

lemma readU32_shift (pre l : List ℕ) (off : ℕ) :
    readU32 (pre ++ l) (pre.length + off) = readU32 l off := by
  unfold readU32
  rw [List.length_append]
  by_cases h : off + 4 ≤ l.length
  · rw [if_pos (by omega), if_pos h,
      show pre.length + off + 1 = pre.length + (off + 1) by omega,
      show pre.length + off + 2 = pre.length + (off + 2) by omega,
      show pre.length + off + 3 = pre.length + (off + 3) by omega,
      getD_append_len, getD_append_len, getD_append_len, getD_append_len]
  · rw [if_neg (by omega), if_neg h]

lemma readU32_cons (b0 b1 b2 b3 : ℕ) (t : List ℕ) :
    readU32 (b0 :: b1 :: b2 :: b3 :: t) 0 =
      some (b0 % 256 * 16777216 + b1 % 256 * 65536 + b2 % 256 * 256 + b3 % 256) := by
  unfold readU32
  rw [if_pos (by simp only [List.length_cons]; omega)]
  rfl

lemma map_mod_eq_self (l : List ℕ) (h : ∀ b ∈ l, b < 256) :
    l.map (fun b => b % 256) = l := by
  induction l with
  | nil => rfl
  | cons a t ih =>
    simp only [List.map_cons]
    rw [Nat.mod_eq_of_lt (h a (by simp)), ih (fun b hb => h b (by simp [hb]))]

lemma flatMap_const_length (f : ℕ → List ℕ) (L : ℕ) (hL : ∀ i, (f i).length = L) :
    ∀ n, ((List.range n).flatMap f).length = n * L := by
  intro n
  induction n with
  | zero => simp
  | succ n ih =>
    rw [List.range_succ, List.flatMap_append, List.length_append, ih]
    simp [hL n, Nat.succ_mul]

lemma flatMap_range_getD (L : ℕ) :
    ∀ (h : ℕ) (f : ℕ → List ℕ), (∀ i, (f i).length = L) →
      ∀ y o, y < h → o < L →
        ((List.range h).flatMap f).getD (y * L + o) 0 = (f y).getD o 0 := by
  intro h
  induction h with
  | zero => intro f hf y o hy ho; omega
  | succ h ih =>
    intro f hf y o hy ho
    rw [List.range_succ_eq_map, List.flatMap_cons, List.flatMap_map]
    cases y with
    | zero =>
      rw [Nat.zero_mul, Nat.zero_add, getD_append_lt _ _ o (by rw [hf 0]; exact ho)]
    | succ y =>
      rw [show (y + 1) * L + o = (f 0).length + (y * L + o) by rw [hf 0]; ring,
        getD_append_len]
      exact ih (fun i => f (i + 1)) (fun i => hf (i + 1)) y o (by omega) ho

/-! ## The flattened unfiltering pass -/

lemma decodeSteps_succ_end (dec : List ℕ) (w bpp ch : ℕ) :
    ∀ (c s : ℕ) (b : ℕ → ℕ),
      decodeSteps dec w bpp ch s (c + 1) b =
        decodePixel dec w bpp ch ((s + c) / w) ((s + c) % w)
          (decodeSteps dec w bpp ch s c b) := by
  intro c
  induction c with
  | zero => intro s b; simp [decodeSteps]
  | succ c ih =>
    intro s b
    rw [show c + 1 + 1 = (c + 1) + 1 from rfl]
    rw [decodeSteps]
    rw [ih (s + 1)]
    rw [decodeSteps]
    rw [show s + 1 + c = s + (c + 1) by omega]

lemma decodeSteps_append (dec : List ℕ) (w bpp ch : ℕ) :
    ∀ (c1 c2 s : ℕ) (b : ℕ → ℕ),
      decodeSteps dec w bpp ch s (c1 + c2) b =
        decodeSteps dec w bpp ch (s + c1) c2 (decodeSteps dec w bpp ch s c1 b) := by
  intro c1
  induction c1 with
  | zero => intro c2 s b; simp [decodeSteps]
  | succ c1 ih =>
    intro c2 s b
    conv_lhs => rw [show c1 + 1 + c2 = (c1 + c2) + 1 by omega, decodeSteps]
    conv_rhs => rw [decodeSteps]
    rw [ih c2 (s + 1)]
    rw [show s + (c1 + 1) = s + 1 + c1 by omega]

lemma decodePixel_miss (dec : List ℕ) (w bpp ch y x : ℕ) (d : ℕ → ℕ) (j : ℕ)
    (hj : j < (y * w + x) * 4 ∨ (y * w + x) * 4 + 4 ≤ j) :
    decodePixel dec w bpp ch y x d j = d j := by
  simp only [decodePixel]
  rw [Function.update_noteq (by omega), Function.update_noteq (by omega),
    Function.update_noteq (by omega), Function.update_noteq (by omega)]

lemma cols_fold_eq (dec : List ℕ) (w bpp ch y : ℕ) :
    ∀ (k : ℕ), k ≤ w → ∀ (b : ℕ → ℕ),
      (List.range k).foldl
        (fun d x => decodePixel dec w bpp ch y x d) b =
        decodeSteps dec w bpp ch (y * w) k b := by
  intro k
  induction k with
  | zero => intro _ b; simp [decodeSteps]
  | succ k ih =>
    intro hk b
    rw [List.range_succ, List.foldl_append, List.foldl_cons, List.foldl_nil,
      ih (by omega), decodeSteps_succ_end]
    have hdiv : (y * w + k) / w = y := by
      rw [Nat.add_comm, Nat.add_mul_div_right _ _ (by omega : 0 < w),
        Nat.div_eq_of_lt (by omega)]
      omega
    have hmod : (y * w + k) % w = k := by
      rw [Nat.add_comm, Nat.add_mul_mod_self_right, Nat.mod_eq_of_lt (by omega)]
    rw [hdiv, hmod]

lemma decodeScanlines_eq_steps (dec : List ℕ) (w h bpp ch : ℕ) :
    decodeScanlines dec w h bpp ch =
      decodeSteps dec w bpp ch 0 (h * w) (fun _ => 0) := by
  unfold decodeScanlines
  induction h with
  | zero => simp [decodeSteps]
  | succ h ih =>
    rw [List.range_succ, List.foldl_append, List.foldl_cons, List.foldl_nil, ih,
      cols_fold_eq dec w bpp ch h w (by omega),
      show (h + 1) * w = h * w + w by ring,
      decodeSteps_append]
    rw [Nat.zero_add]

lemma decodeSteps_lt (dec : List ℕ) (w bpp ch : ℕ) :
    ∀ (c s : ℕ) (b : ℕ → ℕ) (j : ℕ), j < 4 * s →
      decodeSteps dec w bpp ch s c b j = b j := by
  intro c
  induction c with
  | zero => intro s b j _; rfl
  | succ c ih =>
    intro s b j hj
    rw [decodeSteps]
    rw [ih (s + 1) _ j (by omega)]
    have hsw : s / w * w + s % w = s := by
      rw [Nat.mul_comm (s / w) w]
      exact Nat.div_add_mod s w
    exact decodePixel_miss dec w bpp ch (s / w) (s % w) b j (by omega)

lemma decodeSteps_prefix (dec : List ℕ) (w bpp ch : ℕ) (N i : ℕ) (hi : i ≤ N)
    (j : ℕ) (hj : j < 4 * i) (b : ℕ → ℕ) :
    decodeSteps dec w bpp ch 0 N b j = decodeSteps dec w bpp ch 0 i b j := by
  rw [show N = i + (N - i) by omega, decodeSteps_append,
    decodeSteps_lt dec w bpp ch (N - i) (0 + i) _ j (by omega)]

lemma decodeSteps_char (dec : List ℕ) (w bpp ch : ℕ) (N i : ℕ) (hi : i < N)
    (k : ℕ) (hk : k < 4) (b : ℕ → ℕ) :
    decodeSteps dec w bpp ch 0 N b (4 * i + k) =
      decodePixel dec w bpp ch (i / w) (i % w)
        (decodeSteps dec w bpp ch 0 i b) (4 * i + k) := by
  rw [show N = (i + 1) + (N - i - 1) by omega, decodeSteps_append,
    decodeSteps_lt dec w bpp ch (N - i - 1) (0 + (i + 1)) _ _ (by omega),
    decodeSteps_succ_end]
  rw [Nat.zero_add]

lemma decodePixel_hit4 (dec : List ℕ) (w bpp : ℕ) (y x k : ℕ) (hk : k < 4)
    (d : ℕ → ℕ) :
    decodePixel dec w bpp 4 y x d ((y * w + x) * 4 + k) =
      applyFilter (dec.getD (y * (w * bpp + 1)) 0)
        (dec.getD (y * (w * bpp + 1) + 1 + x * bpp + k) 0)
        (if 0 < x then d ((y * w + x) * 4 - 4 + k) else 0)
        (if 0 < y then d ((y * w + x) * 4 - w * 4 + k) else 0)
        (if 0 < x ∧ 0 < y then d ((y * w + x) * 4 - w * 4 - 4 + k) else 0) % 256 := by
  interval_cases k
  · simp only [decodePixel]
    rw [Function.update_noteq (by omega), Function.update_noteq (by omega),
      Function.update_noteq (by omega)]
    rw [show (y * w + x) * 4 + 0 = (y * w + x) * 4 by omega, Function.update_same]
  · simp only [decodePixel]
    rw [Function.update_noteq (by omega), Function.update_noteq (by omega),
      Function.update_same]
    norm_num
  · simp only [decodePixel]
    rw [Function.update_noteq (by omega), Function.update_same]
    norm_num
  · simp only [decodePixel]
    rw [Function.update_same]
    norm_num

/-- C3: in the RGBA case (channels = 4, bytes-per-pixel = 4) the
decoder reconstructs every channel byte of pixel (x, y) as
applyFilter applied to that scanline's leading filter-type byte, the
raw channel byte of the stream, and the already-reconstructed
left/up/upLeft neighbor bytes of the output RGBA buffer (0 on the
first row/column), the store truncating mod 256; and the Paeth
predictor of applyFilter picks one of left/up/upLeft minimizing
|p - candidate| for p = left + up - upLeft (ties resolved toward
left, then up, then upLeft, by the shape of its definition). -/
theorem c3_filter_reconstruction (decompressed : List ℕ) (w h : ℕ)
    (_hlen : h * (w * 4 + 1) ≤ decompressed.length)
    (y x k : ℕ) (hy : y < h) (hx : x < w) (hk : k < 4) :
    (decodeScanlines decompressed w h 4 4 ((y * w + x) * 4 + k) =
      applyFilter (decompressed.getD (y * (w * 4 + 1)) 0)
        (decompressed.getD (y * (w * 4 + 1) + 1 + x * 4 + k) 0)
        (if 0 < x then
          decodeScanlines decompressed w h 4 4 ((y * w + x) * 4 - 4 + k) else 0)
        (if 0 < y then
          decodeScanlines decompressed w h 4 4 ((y * w + x) * 4 - w * 4 + k) else 0)
        (if 0 < x ∧ 0 < y then
          decodeScanlines decompressed w h 4 4 ((y * w + x) * 4 - w * 4 - 4 + k)
        else 0) % 256) ∧
    (∀ left up upLeft : ℕ,
      (((left : ℤ) + up - upLeft) - paethPredictor left up upLeft).natAbs ≤
          (((left : ℤ) + up - upLeft) - left).natAbs ∧
        (((left : ℤ) + up - upLeft) - paethPredictor left up upLeft).natAbs ≤
          (((left : ℤ) + up - upLeft) - up).natAbs ∧
        (((left : ℤ) + up - upLeft) - paethPredictor left up upLeft).natAbs ≤
          (((left : ℤ) + up - upLeft) - upLeft).natAbs ∧
        (paethPredictor left up upLeft = left ∨ paethPredictor left up upLeft = up ∨
          paethPredictor left up upLeft = upLeft)) := by
  constructor
  · have hw : 0 < w := by omega
    set i := y * w + x with hi
    have hiN : i < h * w := by
      have h1 : (y + 1) * w ≤ h * w := Nat.mul_le_mul_right w (by omega)
      rw [Nat.add_mul, Nat.one_mul] at h1
      omega
    have hdiv : i / w = y := by
      rw [hi, Nat.add_comm, Nat.add_mul_div_right _ _ hw, Nat.div_eq_of_lt hx]
      omega
    have hmod : i % w = x := by
      rw [hi, Nat.add_comm, Nat.add_mul_mod_self_right, Nat.mod_eq_of_lt hx]
    rw [decodeScanlines_eq_steps]
    rw [show (y * w + x) * 4 + k = 4 * i + k by rw [hi]; ring]
    rw [decodeSteps_char _ _ _ _ (h * w) i hiN k hk, hdiv, hmod]
    rw [show 4 * i + k = (y * w + x) * 4 + k by rw [hi]; ring]
    rw [decodePixel_hit4 _ _ _ y x k hk]
    have hleft : (if 0 < x then
          decodeSteps decompressed w 4 4 0 i (fun _ => 0) ((y * w + x) * 4 - 4 + k)
        else 0) =
        (if 0 < x then
          decodeSteps decompressed w 4 4 0 (h * w) (fun _ => 0) ((y * w + x) * 4 - 4 + k)
        else 0) := by
      by_cases h0 : 0 < x
      · rw [if_pos h0, if_pos h0,
          decodeSteps_prefix decompressed w 4 4 (h * w) i (by omega) _ (by omega)]
      · rw [if_neg h0, if_neg h0]
    have hupw : 0 < y → w ≤ i := by
      intro h0
      have h1 : 1 * w ≤ y * w := Nat.mul_le_mul_right w (by omega)
      rw [Nat.one_mul] at h1
      omega
    have hup : (if 0 < y then
          decodeSteps decompressed w 4 4 0 i (fun _ => 0) ((y * w + x) * 4 - w * 4 + k)
        else 0) =
        (if 0 < y then
          decodeSteps decompressed w 4 4 0 (h * w) (fun _ => 0)
            ((y * w + x) * 4 - w * 4 + k)
        else 0) := by
      by_cases h0 : 0 < y
      · have hwi := hupw h0
        rw [if_pos h0, if_pos h0,
          decodeSteps_prefix decompressed w 4 4 (h * w) i (by omega) _ (by omega)]
      · rw [if_neg h0, if_neg h0]
    have hupl : (if 0 < x ∧ 0 < y then
          decodeSteps decompressed w 4 4 0 i (fun _ => 0)
            ((y * w + x) * 4 - w * 4 - 4 + k)
        else 0) =
        (if 0 < x ∧ 0 < y then
          decodeSteps decompressed w 4 4 0 (h * w) (fun _ => 0)
            ((y * w + x) * 4 - w * 4 - 4 + k)
        else 0) := by
      by_cases h0 : 0 < x ∧ 0 < y
      · have hwi := hupw h0.2
        rw [if_pos h0, if_pos h0,
          decodeSteps_prefix decompressed w 4 4 (h * w) i (by omega) _ (by omega)]
      · rw [if_neg h0, if_neg h0]
    rw [hleft, hup, hupl]
  · intro left up upLeft
    simp only [paethPredictor]
    split_ifs with h1 h2
    · exact ⟨by omega, by omega, by omega, Or.inl rfl⟩
    · exact ⟨by omega, by omega, by omega, Or.inr (Or.inl rfl)⟩
    · exact ⟨by omega, by omega, by omega, Or.inr (Or.inr rfl)⟩

/-- C3 witness: a single RGBA pixel with Paeth filter byte (type 4) on
the first row and column; all neighbors are 0, the predictor returns
0 and the byte decodes to the raw value. -/
theorem c3_filter_reconstruction_witness :
    decodeScanlines [4, 9, 10, 11, 12] 1 1 4 4 ((0 * 1 + 0) * 4 + 0) =
      applyFilter (([4, 9, 10, 11, 12] : List ℕ).getD (0 * (1 * 4 + 1)) 0)
        (([4, 9, 10, 11, 12] : List ℕ).getD (0 * (1 * 4 + 1) + 1 + 0 * 4 + 0) 0)
        (if 0 < 0 then
          decodeScanlines [4, 9, 10, 11, 12] 1 1 4 4 ((0 * 1 + 0) * 4 - 4 + 0) else 0)
        (if 0 < 0 then
          decodeScanlines [4, 9, 10, 11, 12] 1 1 4 4 ((0 * 1 + 0) * 4 - 1 * 4 + 0)
        else 0)
        (if 0 < 0 ∧ 0 < 0 then
          decodeScanlines [4, 9, 10, 11, 12] 1 1 4 4 ((0 * 1 + 0) * 4 - 1 * 4 - 4 + 0)
        else 0) % 256 :=
  (c3_filter_reconstruction [4, 9, 10, 11, 12] 1 1 (by decide) 0 0 0
    (by decide) (by decide) (by decide)).1

/-! ## The encoder emits signature ++ IHDR ++ IDAT ++ IEND -/

lemma crcTableStep_lt (c : ℕ) (h : c < 4294967296) : crcTableStep c < 4294967296 := by
  unfold crcTableStep
  have h1 : c >>> 1 < 4294967296 := by
    rw [Nat.shiftRight_succ, Nat.shiftRight_zero]
    omega
  split
  · have h2 : (0xedb88320 : ℕ) < 2 ^ 32 := by norm_num
    have h3 : c >>> 1 < 2 ^ 32 := by norm_num at h1 ⊢; omega
    have := Nat.xor_lt_two_pow h2 h3
    norm_num at this ⊢
    omega
  · exact h1

lemma crcTableStep_iterate_lt (k c : ℕ) (h : c < 4294967296) :
    crcTableStep^[k] c < 4294967296 := by
  induction k generalizing c with
  | zero => exact h
  | succ k ih =>
    rw [Function.iterate_succ_apply]
    exact ih _ (crcTableStep_lt c h)

lemma crc32_lt (l : List ℕ) : crc32 l < 4294967296 := by
  unfold crc32
  have hfold : ∀ (l : List ℕ) (acc : ℕ), acc < 4294967296 →
      l.foldl (fun crc b => crcTable ((crc ^^^ b) &&& 255) ^^^ (crc >>> 8)) acc
        < 4294967296 := by
    intro l
    induction l with
    | nil => intro acc h; exact h
    | cons b t ih =>
      intro acc h
      rw [List.foldl_cons]
      refine ih _ ?_
      have h1 : crcTable ((acc ^^^ b) &&& 255) < 4294967296 := by
        apply crcTableStep_iterate_lt
        have : (acc ^^^ b) &&& 255 ≤ 255 := Nat.and_le_right
        omega
      have h2 : acc >>> 8 < 4294967296 := by
        rw [Nat.shiftRight_eq_div_pow]
        have := Nat.div_le_self acc (2 ^ 8)
        omega
      have h3 : crcTable ((acc ^^^ b) &&& 255) < 2 ^ 32 := by norm_num; omega
      have h4 : acc >>> 8 < 2 ^ 32 := by norm_num; omega
      have := Nat.xor_lt_two_pow h3 h4
      norm_num at this ⊢
      omega
  have h5 := hfold l 0xffffffff (by norm_num)
  have h6 : (0xffffffff : ℕ) < 2 ^ 32 := by norm_num
  have h7 : l.foldl (fun crc b => crcTable ((crc ^^^ b) &&& 255) ^^^ (crc >>> 8))
      0xffffffff < 2 ^ 32 := by norm_num; omega
  have := Nat.xor_lt_two_pow h7 h6
  norm_num at this ⊢
  omega

lemma crc32_mod (l : List ℕ) : crc32 l % 4294967296 = crc32 l :=
  Nat.mod_eq_of_lt (crc32_lt l)

lemma setU32_append (P tail : List ℕ) (v : ℕ) :
    setU32 (P ++ tail) P.length v = P ++ setU32 tail 0 v := by
  unfold setU32
  have h0 : ∀ (a : ℕ) (L : List ℕ), (P ++ L).set P.length a = P ++ L.set 0 a := by
    intro a L
    have h1 := set_append_len P L 0 a
    rw [Nat.add_zero] at h1
    exact h1
  rw [h0, set_append_len, set_append_len, set_append_len]

lemma iendS1 : setU32 (List.replicate 12 0) 0 0 = [0, 0, 0, 0] ++ List.replicate 8 0 := rfl

lemma iendS2 : setSeg ([0, 0, 0, 0] ++ List.replicate 8 0) 4 [0x49, 0x45, 0x4e, 0x44] =
    [0, 0, 0, 0, 0x49, 0x45, 0x4e, 0x44] ++ List.replicate 4 0 := rfl

lemma iendS3 : (([0, 0, 0, 0, 0x49, 0x45, 0x4e, 0x44] ++
    List.replicate 4 0).drop 4).take 4 = [0x49, 0x45, 0x4e, 0x44] := rfl

lemma iendS4 (c : ℕ) :
    setU32 ([0, 0, 0, 0, 0x49, 0x45, 0x4e, 0x44] ++ List.replicate 4 0) 8 c =
      [0, 0, 0, 0, 0x49, 0x45, 0x4e, 0x44] ++ be32 (c % 4294967296) := rfl

lemma encodeIEND_eq : encodeIEND = mkChunk [0x49, 0x45, 0x4e, 0x44] [] := by
  simp only [encodeIEND]
  rw [iendS1, iendS2, iendS3, iendS4, crc32_mod]
  simp only [mkChunk]
  rw [show crc32 [0x49, 0x45, 0x4e, 0x44] =
    crc32 ([0x49, 0x45, 0x4e, 0x44] ++ ([] : List ℕ)) by rw [List.append_nil]]
  rfl

lemma ihdrS1 : setU32 (List.replicate 25 0) 0 13 =
    [0, 0, 0, 13] ++ List.replicate 21 0 := rfl

lemma ihdrS2 : setSeg ([0, 0, 0, 13] ++ List.replicate 21 0) 4 [0x49, 0x48, 0x44, 0x52] =
    [0, 0, 0, 13, 0x49, 0x48, 0x44, 0x52] ++ List.replicate 17 0 := rfl

lemma ihdrS3 (width : ℕ) :
    setU32 ([0, 0, 0, 13, 0x49, 0x48, 0x44, 0x52] ++ List.replicate 17 0) 8 width =
      [0, 0, 0, 13, 0x49, 0x48, 0x44, 0x52] ++
        (be32 (width % 4294967296) ++ List.replicate 13 0) := rfl

lemma ihdrS4 (width height : ℕ) :
    setU32 ([0, 0, 0, 13, 0x49, 0x48, 0x44, 0x52] ++
        (be32 (width % 4294967296) ++ List.replicate 13 0)) 12 height =
      [0, 0, 0, 13, 0x49, 0x48, 0x44, 0x52] ++
        (be32 (width % 4294967296) ++
          (be32 (height % 4294967296) ++ List.replicate 9 0)) := rfl

lemma ihdrS5 (width height : ℕ) :
    ((((([0, 0, 0, 13, 0x49, 0x48, 0x44, 0x52] ++
        (be32 (width % 4294967296) ++
          (be32 (height % 4294967296) ++ List.replicate 9 0))).set 16 8).set
        17 6).set 18 0).set 19 0).set 20 0 =
      [0, 0, 0, 13, 0x49, 0x48, 0x44, 0x52] ++
        (be32 (width % 4294967296) ++
          (be32 (height % 4294967296) ++ [8, 6, 0, 0, 0, 0, 0, 0, 0])) := rfl

lemma ihdrS6 (width height : ℕ) :
    (([0, 0, 0, 13, 0x49, 0x48, 0x44, 0x52] ++
        (be32 (width % 4294967296) ++
          (be32 (height % 4294967296) ++ [8, 6, 0, 0, 0, 0, 0, 0, 0]))).drop 4).take 17 =
      [0x49, 0x48, 0x44, 0x52] ++
        (be32 (width % 4294967296) ++
          (be32 (height % 4294967296) ++ [8, 6, 0, 0, 0])) := rfl

lemma ihdrS7 (width height c : ℕ) :
    setU32 ([0, 0, 0, 13, 0x49, 0x48, 0x44, 0x52] ++
        (be32 (width % 4294967296) ++
          (be32 (height % 4294967296) ++ [8, 6, 0, 0, 0, 0, 0, 0, 0]))) 21 c =
      [0, 0, 0, 13, 0x49, 0x48, 0x44, 0x52] ++
        (be32 (width % 4294967296) ++
          (be32 (height % 4294967296) ++ ([8, 6, 0, 0, 0] ++ be32 (c % 4294967296)))) := rfl

lemma encodeIHDR_eq (width height : ℕ) (hw : width < 4294967296)
    (hh : height < 4294967296) :
    encodeIHDR width height =
      mkChunk [0x49, 0x48, 0x44, 0x52] (be32 width ++ be32 height ++ [8, 6, 0, 0, 0]) := by
  simp only [encodeIHDR]
  rw [ihdrS1, ihdrS2, ihdrS3, ihdrS4, ihdrS5, ihdrS6, ihdrS7,
    Nat.mod_eq_of_lt hw, Nat.mod_eq_of_lt hh, crc32_mod,
    show ([0x49, 0x48, 0x44, 0x52] ++ (be32 width ++ (be32 height ++ [8, 6, 0, 0, 0])))
      = [0x49, 0x48, 0x44, 0x52] ++ (be32 width ++ be32 height ++ [8, 6, 0, 0, 0]) by
      simp [List.append_assoc]]
  simp only [mkChunk]
  simp [be32, List.append_assoc]

lemma encodeIDAT_eq (compressed : List ℕ) (hlen : compressed.length < 4294967296)
    (hb : ∀ b ∈ compressed, b < 256) :
    encodeIDAT compressed = mkChunk [0x49, 0x44, 0x41, 0x54] compressed := by
  have h1 : setU32 (List.replicate (12 + compressed.length) 0) 0 compressed.length
      = (be32 compressed.length ++ [0, 0, 0, 0]) ++
        ([0, 0, 0, 0] ++ List.replicate compressed.length 0) := by
    rw [List.replicate_add]
    simp only [setU32, be32]
    rw [Nat.mod_eq_of_lt hlen]
    rfl
  have h2 : setSeg ((be32 compressed.length ++ [0, 0, 0, 0]) ++
        ([0, 0, 0, 0] ++ List.replicate compressed.length 0)) 4 [0x49, 0x44, 0x41, 0x54]
      = (be32 compressed.length ++ [0x49, 0x44, 0x41, 0x54]) ++
        ([0, 0, 0, 0] ++ List.replicate compressed.length 0) := by
    simp only [setSeg, be32]
    rfl
  have h3 : setSeg ((be32 compressed.length ++ [0x49, 0x44, 0x41, 0x54]) ++
        ([0, 0, 0, 0] ++ List.replicate compressed.length 0)) 8 compressed
      = ((be32 compressed.length ++ [0x49, 0x44, 0x41, 0x54]) ++ compressed) ++
        [0, 0, 0, 0] := by
    simp only [setSeg]
    rw [map_mod_eq_self compressed hb]
    have hpre : ((be32 compressed.length ++ [0x49, 0x44, 0x41, 0x54]) ++
        ([0, 0, 0, 0] ++ List.replicate compressed.length 0)).take 8 =
          be32 compressed.length ++ [0x49, 0x44, 0x41, 0x54] := by
      simp only [be32]
      rfl
    have hdrop : ((be32 compressed.length ++ [0x49, 0x44, 0x41, 0x54]) ++
        ([0, 0, 0, 0] ++ List.replicate compressed.length 0)).drop
          (8 + compressed.length) = [0, 0, 0, 0] := by
      rw [show (8 : ℕ) + compressed.length =
        ((be32 compressed.length ++ [0x49, 0x44, 0x41, 0x54] : List ℕ)).length +
          compressed.length by simp [be32]]
      rw [drop_append_len]
      rw [show ([0, 0, 0, 0] ++ List.replicate compressed.length (0 : ℕ)) =
        List.replicate compressed.length 0 ++ [0, 0, 0, 0] by
        rw [show ([0, 0, 0, 0] : List ℕ) = List.replicate 4 0 from rfl,
          List.append_replicate_replicate, List.append_replicate_replicate,
          Nat.add_comm]]
      rw [List.drop_left' (List.length_replicate _ _)]
    rw [hpre, hdrop]
  have hslice : (((((be32 compressed.length ++ [0x49, 0x44, 0x41, 0x54]) ++
        compressed) ++ [0, 0, 0, 0]).drop 4).take (4 + compressed.length)) =
      [0x49, 0x44, 0x41, 0x54] ++ compressed := by
    have hd4 : ((((be32 compressed.length ++ [0x49, 0x44, 0x41, 0x54]) ++
        compressed) ++ [0, 0, 0, 0]).drop 4) =
          (([0x49, 0x44, 0x41, 0x54] ++ compressed) ++ [0, 0, 0, 0]) := by
      simp only [be32]
      rfl
    rw [hd4,
      show (4 : ℕ) + compressed.length =
        (([0x49, 0x44, 0x41, 0x54] ++ compressed : List ℕ)).length by simp; omega,
      List.take_left]
  have hfin : encodeIDAT compressed =
      setU32 (((be32 compressed.length ++ [0x49, 0x44, 0x41, 0x54]) ++ compressed) ++
        [0, 0, 0, 0]) (8 + compressed.length)
        (crc32 ([0x49, 0x44, 0x41, 0x54] ++ compressed)) := by
    simp only [encodeIDAT]
    rw [h1, h2, h3, hslice]
  rw [hfin,
    show (8 : ℕ) + compressed.length =
      (((be32 compressed.length ++ [0x49, 0x44, 0x41, 0x54]) ++ compressed :
        List ℕ)).length by simp [be32]; omega,
    setU32_append]
  simp only [mkChunk, setU32]
  rw [crc32_mod]
  simp [be32, List.append_assoc]

lemma encodePNG_eq (deflate : List ℕ → List ℕ) (width height : ℕ) (data : ℕ → ℕ)
    (hw : width < 4294967296) (hh : height < 4294967296)
    (hlen : (deflate (mkScanlines width height data)).length < 4294967296)
    (hb : ∀ b ∈ deflate (mkScanlines width height data), b < 256) :
    encodePNG deflate width height data =
      pngSignature ++
        (mkChunk [0x49, 0x48, 0x44, 0x52]
          (be32 width ++ be32 height ++ [8, 6, 0, 0, 0]) ++
        (mkChunk [0x49, 0x44, 0x41, 0x54] (deflate (mkScanlines width height data)) ++
        mkChunk [0x49, 0x45, 0x4e, 0x44] [])) := by
  simp only [encodePNG]
  rw [encodeIHDR_eq _ _ hw hh, encodeIDAT_eq _ hlen hb, encodeIEND_eq]
  simp [pngSignature, List.append_assoc]

lemma rowList_length (data : ℕ → ℕ) (width : ℕ) (y : ℕ) :
    ((0 : ℕ) :: (List.range width).flatMap
      (fun x =>
        [data ((y * width + x) * 4) % 256, data ((y * width + x) * 4 + 1) % 256,
          data ((y * width + x) * 4 + 2) % 256,
          data ((y * width + x) * 4 + 3) % 256])).length = width * 4 + 1 := by
  simp only [List.length_cons]
  rw [flatMap_const_length
    (fun x =>
      [data ((y * width + x) * 4) % 256, data ((y * width + x) * 4 + 1) % 256,
        data ((y * width + x) * 4 + 2) % 256, data ((y * width + x) * 4 + 3) % 256])
    4 (fun x => rfl) width]

lemma mkScanlines_getD (width height : ℕ) (data : ℕ → ℕ) (y : ℕ) (hy : y < height)
    (o : ℕ) (ho : o < width * 4 + 1) :
    (mkScanlines width height data).getD (y * (width * 4 + 1) + o) 0 =
      ((0 : ℕ) :: (List.range width).flatMap
        (fun x =>
          [data ((y * width + x) * 4) % 256, data ((y * width + x) * 4 + 1) % 256,
            data ((y * width + x) * 4 + 2) % 256,
            data ((y * width + x) * 4 + 3) % 256])).getD o 0 := by
  unfold mkScanlines
  exact flatMap_range_getD (width * 4 + 1) height
    (fun y => (0 : ℕ) :: (List.range width).flatMap
      (fun x =>
        [data ((y * width + x) * 4) % 256, data ((y * width + x) * 4 + 1) % 256,
          data ((y * width + x) * 4 + 2) % 256,
          data ((y * width + x) * 4 + 3) % 256]))
    (fun i => rowList_length data width i) y o hy ho

lemma mkScanlines_filter_byte (width height : ℕ) (data : ℕ → ℕ) (y : ℕ)
    (hy : y < height) :
    (mkScanlines width height data).getD (y * (width * 4 + 1)) 0 = 0 := by
  have h := mkScanlines_getD width height data y hy 0 (by omega)
  rw [Nat.add_zero] at h
  rw [h]
  rfl

lemma mkScanlines_pixel_byte (width height : ℕ) (data : ℕ → ℕ) (y x k : ℕ)
    (hy : y < height) (hx : x < width) (hk : k < 4) :
    (mkScanlines width height data).getD (y * (width * 4 + 1) + ((x * 4 + k) + 1)) 0 =
      data ((y * width + x) * 4 + k) % 256 := by
  rw [mkScanlines_getD width height data y hy ((x * 4 + k) + 1) (by omega),
    List.getD_cons_succ]
  rw [flatMap_range_getD 4 width
    (fun x =>
      [data ((y * width + x) * 4) % 256, data ((y * width + x) * 4 + 1) % 256,
        data ((y * width + x) * 4 + 2) % 256, data ((y * width + x) * 4 + 3) % 256])
    (fun i => rfl) x k hx hk]
  interval_cases k
  · rfl
  · rfl
  · rfl
  · rfl

lemma mkScanlines_length (width height : ℕ) (data : ℕ → ℕ) :
    (mkScanlines width height data).length = height * (width * 4 + 1) := by
  unfold mkScanlines
  rw [flatMap_const_length
    (fun y => (0 : ℕ) :: (List.range width).flatMap
      (fun x =>
        [data ((y * width + x) * 4) % 256, data ((y * width + x) * 4 + 1) % 256,
          data ((y * width + x) * 4 + 2) % 256,
          data ((y * width + x) * 4 + 3) % 256]))
    (width * 4 + 1) (fun i => rowList_length data width i) height]

lemma mkScanlines_bytes_lt (width height : ℕ) (data : ℕ → ℕ) :
    ∀ b ∈ mkScanlines width height data, b < 256 := by
  intro b hb
  unfold mkScanlines at hb
  simp only [List.mem_flatMap, List.mem_range, List.mem_cons] at hb
  obtain ⟨y, _, hy⟩ := hb
  rcases hy with h | h
  · omega
  · obtain ⟨x, _, hx⟩ := h
    simp only [List.mem_cons, List.not_mem_nil, or_false] at hx
    rcases hx with h | h | h | h <;> (rw [h]; exact Nat.mod_lt _ (by omega))

/-- C7: for every image, encodePNG emits exactly the fixed 8-byte
signature, an IHDR chunk whose 13-byte payload is big-endian width and
height, bit depth 8, color type 6 and compression/filter/interlace
0/0/0, exactly one IDAT chunk wrapping the deflated scanline stream,
and an empty IEND chunk, each chunk carrying a trailing CRC32 over its
type and data bytes; and the scanline stream fed to deflate gives
every row a leading filter byte 0 followed by that row's RGBA bytes
unmodified.  Hypotheses: width, height and the compressed length fit
in a u32 (the DecodedImage data model and the collaborator contract),
and deflate emits bytes. -/
theorem c7_encode_structure (deflate : List ℕ → List ℕ) (width height : ℕ)
    (data : ℕ → ℕ) (hw : width < 4294967296) (hh : height < 4294967296)
    (hlen : (deflate (mkScanlines width height data)).length < 4294967296)
    (hb : ∀ b ∈ deflate (mkScanlines width height data), b < 256) :
    encodePNG deflate width height data =
      pngSignature ++
        (mkChunk [0x49, 0x48, 0x44, 0x52]
          (be32 width ++ be32 height ++ [8, 6, 0, 0, 0]) ++
        (mkChunk [0x49, 0x44, 0x41, 0x54] (deflate (mkScanlines width height data)) ++
        mkChunk [0x49, 0x45, 0x4e, 0x44] [])) ∧
      (∀ y : ℕ, y < height →
        (mkScanlines width height data).getD (y * (width * 4 + 1)) 0 = 0) ∧
      (∀ y x k : ℕ, y < height → x < width → k < 4 →
        (mkScanlines width height data).getD
            (y * (width * 4 + 1) + ((x * 4 + k) + 1)) 0 =
          data ((y * width + x) * 4 + k) % 256) :=
  ⟨encodePNG_eq deflate width height data hw hh hlen hb,
    fun y hy => mkScanlines_filter_byte width height data y hy,
    fun y x k hy hx hk => mkScanlines_pixel_byte width height data y x k hy hx hk⟩

/-- C7 witness: a 1 by 1 image with constant byte 7 and the identity
as deflate. -/
theorem c7_encode_structure_witness :
    encodePNG (fun b => b) 1 1 (fun _ => 7) =
      pngSignature ++
        (mkChunk [0x49, 0x48, 0x44, 0x52]
          (be32 1 ++ be32 1 ++ [8, 6, 0, 0, 0]) ++
        (mkChunk [0x49, 0x44, 0x41, 0x54]
          ((fun (b : List ℕ) => b) (mkScanlines 1 1 (fun _ => 7))) ++
        mkChunk [0x49, 0x45, 0x4e, 0x44] [])) ∧
      (∀ y : ℕ, y < 1 →
        (mkScanlines 1 1 (fun _ => 7)).getD (y * (1 * 4 + 1)) 0 = 0) ∧
      (∀ y x k : ℕ, y < 1 → x < 1 → k < 4 →
        (mkScanlines 1 1 (fun _ => 7)).getD (y * (1 * 4 + 1) + ((x * 4 + k) + 1)) 0 =
          (fun _ : ℕ => 7) ((y * 1 + x) * 4 + k) % 256) :=
  c7_encode_structure (fun b => b) 1 1 (fun _ => 7) (by norm_num) (by norm_num)
    (by decide) (by decide)

/-! ## Decoding the encoder's output: the chunk walk over
signature ++ IHDR ++ IDAT ++ IEND -/

lemma readU32_start (pre l : List ℕ) :
    readU32 (pre ++ l) pre.length = readU32 l 0 := by
  have h := readU32_shift pre l 0
  rwa [Nat.add_zero] at h

lemma readU32_be32 (v : ℕ) (hv : v < 4294967296) (rest : List ℕ) :
    readU32 (be32 v ++ rest) 0 = some v := by
  unfold be32
  simp only [List.cons_append, List.nil_append]
  rw [readU32_cons]
  congr 1
  omega

lemma getD_append_zero {α : Type} (l1 l2 : List α) (d : α) :
    (l1 ++ l2).getD l1.length d = l2.getD 0 d := by
  have h := getD_append_len l1 l2 0 d
  rwa [Nat.add_zero] at h

lemma drop_append_zero {α : Type} (l1 l2 : List α) :
    (l1 ++ l2).drop l1.length = l2 := by
  have h := drop_append_len l1 l2 0
  rwa [Nat.add_zero, List.drop_zero] at h

/-- One walk step across an IHDR chunk with the encoder's payload
(bit depth 8, color type 6): record the fields and advance 25 bytes
(the trailing CRC is part of rest and is skipped, never read). -/
lemma chunkWalk_step_ihdr (buffer pre rest : List ℕ) (w h : ℕ) (fuel offset : ℕ)
    (st : ChunkState)
    (hbuf : buffer = pre ++ (be32 13 ++ ([73, 72, 68, 82] ++
      (be32 w ++ (be32 h ++ ([8, 6, 0, 0, 0] ++ rest))))))
    (hoff : offset = pre.length)
    (hw : w < 4294967296) (hh : h < 4294967296) :
    chunkWalk buffer (fuel + 1) offset st =
      chunkWalk buffer fuel (offset + 25) ⟨w, h, 8, 6, st.idat⟩ := by
  have hlen : buffer.length = pre.length + (21 + rest.length) := by
    rw [hbuf]
    simp only [be32, List.length_append, List.length_cons, List.length_nil]
    omega
  have hofflt : offset < buffer.length := by omega
  have hread : readU32 buffer offset = some 13 := by
    rw [hbuf, hoff, readU32_start]
    exact readU32_be32 13 (by norm_num) _
  have hbuf2 : buffer = (pre ++ be32 13) ++ ([73, 72, 68, 82] ++
      (be32 w ++ (be32 h ++ ([8, 6, 0, 0, 0] ++ rest)))) := by
    rw [hbuf, List.append_assoc]
  have hplen2 : (pre ++ be32 13).length = offset + 4 := by
    rw [hoff]; simp [be32]
  have ht0 : buffer.getD (offset + 4) 0 = 73 := by
    rw [hbuf2, ← hplen2, getD_append_zero]
    rfl
  have ht1 : buffer.getD (offset + 5) 0 = 72 := by
    rw [hbuf2, show offset + 5 = (pre ++ be32 13).length + 1 by rw [hplen2],
      getD_append_len]
    rfl
  have ht2 : buffer.getD (offset + 6) 0 = 68 := by
    rw [hbuf2, show offset + 6 = (pre ++ be32 13).length + 2 by rw [hplen2],
      getD_append_len]
    rfl
  have ht3 : buffer.getD (offset + 7) 0 = 82 := by
    rw [hbuf2, show offset + 7 = (pre ++ be32 13).length + 3 by rw [hplen2],
      getD_append_len]
    rfl
  have hbuf3 : buffer = (pre ++ (be32 13 ++ [73, 72, 68, 82])) ++
      (be32 w ++ (be32 h ++ ([8, 6, 0, 0, 0] ++ rest))) := by
    rw [hbuf]; simp [List.append_assoc]
  have hplen3 : (pre ++ (be32 13 ++ [73, 72, 68, 82])).length = offset + 8 := by
    rw [hoff]; simp [be32]
  have hrw : readU32 buffer (offset + 8) = some w := by
    rw [hbuf3, ← hplen3, readU32_start]
    exact readU32_be32 w hw _
  have hbuf4 : buffer = (pre ++ (be32 13 ++ ([73, 72, 68, 82] ++ be32 w))) ++
      (be32 h ++ ([8, 6, 0, 0, 0] ++ rest)) := by
    rw [hbuf]; simp [List.append_assoc]
  have hplen4 : (pre ++ (be32 13 ++ ([73, 72, 68, 82] ++ be32 w))).length =
      offset + 12 := by
    rw [hoff]; simp [be32]
  have hrh : readU32 buffer (offset + 12) = some h := by
    rw [hbuf4, ← hplen4, readU32_start]
    exact readU32_be32 h hh _
  have hbuf5 : buffer = (pre ++ (be32 13 ++ ([73, 72, 68, 82] ++
      (be32 w ++ be32 h)))) ++ ([8, 6, 0, 0, 0] ++ rest) := by
    rw [hbuf]; simp [List.append_assoc]
  have hplen5 : (pre ++ (be32 13 ++ ([73, 72, 68, 82] ++ (be32 w ++ be32 h)))).length =
      offset + 16 := by
    rw [hoff]; simp [be32]
  have hbd : buffer.getD (offset + 16) 0 = 8 := by
    rw [hbuf5, ← hplen5, getD_append_zero]
    rfl
  have hct : buffer.getD (offset + 17) 0 = 6 := by
    rw [hbuf5,
      show offset + 17 =
        (pre ++ (be32 13 ++ ([73, 72, 68, 82] ++ (be32 w ++ be32 h)))).length + 1
        by rw [hplen5],
      getD_append_len]
    rfl
  have hc1 : buffer.getD (offset + 4) 0 % 256 = 73 ∧
      buffer.getD (offset + 5) 0 % 256 = 72 ∧
      buffer.getD (offset + 6) 0 % 256 = 68 ∧
      buffer.getD (offset + 7) 0 % 256 = 82 := by
    rw [ht0, ht1, ht2, ht3]
    decide
  conv_lhs => rw [chunkWalk]
  rw [if_pos hofflt, hread]
  simp only [hread, hrw, hrh, hbd, hct, if_pos hc1]

/-- One walk step across an IDAT chunk: append the payload to the
accumulated stream and advance 12 + length bytes (the CRC, inside
rest, is skipped). -/
lemma chunkWalk_step_idat (buffer pre compressed rest : List ℕ) (fuel offset : ℕ)
    (st : ChunkState)
    (hbuf : buffer = pre ++ (be32 compressed.length ++ ([73, 68, 65, 84] ++
      (compressed ++ rest))))
    (hoff : offset = pre.length)
    (hn : compressed.length < 4294967296) :
    chunkWalk buffer (fuel + 1) offset st =
      chunkWalk buffer fuel (offset + 12 + compressed.length)
        ⟨st.width, st.height, st.bitDepth, st.colorType, st.idat ++ compressed⟩ := by
  have hlen : buffer.length = pre.length + (8 + (compressed.length + rest.length)) := by
    rw [hbuf]
    simp only [be32, List.length_append, List.length_cons, List.length_nil]
    omega
  have hofflt : offset < buffer.length := by omega
  have hread : readU32 buffer offset = some compressed.length := by
    rw [hbuf, hoff, readU32_start]
    exact readU32_be32 compressed.length hn _
  have hbuf2 : buffer = (pre ++ be32 compressed.length) ++ ([73, 68, 65, 84] ++
      (compressed ++ rest)) := by
    rw [hbuf, List.append_assoc]
  have hplen2 : (pre ++ be32 compressed.length).length = offset + 4 := by
    rw [hoff]; simp [be32]
  have ht0 : buffer.getD (offset + 4) 0 = 73 := by
    rw [hbuf2, ← hplen2, getD_append_zero]
    rfl
  have ht1 : buffer.getD (offset + 5) 0 = 68 := by
    rw [hbuf2, show offset + 5 = (pre ++ be32 compressed.length).length + 1
        by rw [hplen2],
      getD_append_len]
    rfl
  have ht2 : buffer.getD (offset + 6) 0 = 65 := by
    rw [hbuf2, show offset + 6 = (pre ++ be32 compressed.length).length + 2
        by rw [hplen2],
      getD_append_len]
    rfl
  have ht3 : buffer.getD (offset + 7) 0 = 84 := by
    rw [hbuf2, show offset + 7 = (pre ++ be32 compressed.length).length + 3
        by rw [hplen2],
      getD_append_len]
    rfl
  have hc1 : ¬ (buffer.getD (offset + 4) 0 % 256 = 73 ∧
      buffer.getD (offset + 5) 0 % 256 = 72 ∧
      buffer.getD (offset + 6) 0 % 256 = 68 ∧
      buffer.getD (offset + 7) 0 % 256 = 82) := by
    rw [ht0, ht1, ht2, ht3]
    decide
  have hc2 : buffer.getD (offset + 4) 0 % 256 = 73 ∧
      buffer.getD (offset + 5) 0 % 256 = 68 ∧
      buffer.getD (offset + 6) 0 % 256 = 65 ∧
      buffer.getD (offset + 7) 0 % 256 = 84 := by
    rw [ht0, ht1, ht2, ht3]
    decide
  have hbuf3 : buffer = (pre ++ (be32 compressed.length ++ [73, 68, 65, 84])) ++
      (compressed ++ rest) := by
    rw [hbuf]; simp [List.append_assoc]
  have hplen3 : (pre ++ (be32 compressed.length ++ [73, 68, 65, 84])).length =
      offset + 8 := by
    rw [hoff]; simp [be32]
  have hslice : (buffer.drop (offset + 8)).take compressed.length = compressed := by
    rw [hbuf3, ← hplen3, drop_append_zero]
    exact List.take_left compressed rest
  conv_lhs => rw [chunkWalk]
  rw [if_pos hofflt, hread]
  simp only [hread, if_neg hc1, if_pos hc2, hslice]

/-- One walk step reaching an IEND chunk: the walk returns the
accumulated state at once. -/
lemma chunkWalk_step_iend (buffer pre rest : List ℕ) (fuel offset : ℕ)
    (st : ChunkState)
    (hbuf : buffer = pre ++ (be32 0 ++ ([73, 69, 78, 68] ++ rest)))
    (hoff : offset = pre.length) :
    chunkWalk buffer (fuel + 1) offset st = Except.ok st := by
  have hlen : buffer.length = pre.length + (8 + rest.length) := by
    rw [hbuf]
    simp only [be32, List.length_append, List.length_cons, List.length_nil]
    omega
  have hofflt : offset < buffer.length := by omega
  have hread : readU32 buffer offset = some 0 := by
    rw [hbuf, hoff, readU32_start]
    exact readU32_be32 0 (by norm_num) _
  have hbuf2 : buffer = (pre ++ be32 0) ++ ([73, 69, 78, 68] ++ rest) := by
    rw [hbuf, List.append_assoc]
  have hplen2 : (pre ++ be32 0).length = offset + 4 := by
    rw [hoff]; simp [be32]
  have ht0 : buffer.getD (offset + 4) 0 = 73 := by
    rw [hbuf2, ← hplen2, getD_append_zero]
    rfl
  have ht1 : buffer.getD (offset + 5) 0 = 69 := by
    rw [hbuf2, show offset + 5 = (pre ++ be32 0).length + 1 by rw [hplen2],
      getD_append_len]
    rfl
  have ht2 : buffer.getD (offset + 6) 0 = 78 := by
    rw [hbuf2, show offset + 6 = (pre ++ be32 0).length + 2 by rw [hplen2],
      getD_append_len]
    rfl
  have ht3 : buffer.getD (offset + 7) 0 = 68 := by
    rw [hbuf2, show offset + 7 = (pre ++ be32 0).length + 3 by rw [hplen2],
      getD_append_len]
    rfl
  have hc1 : ¬ (buffer.getD (offset + 4) 0 % 256 = 73 ∧
      buffer.getD (offset + 5) 0 % 256 = 72 ∧
      buffer.getD (offset + 6) 0 % 256 = 68 ∧
      buffer.getD (offset + 7) 0 % 256 = 82) := by
    rw [ht0, ht1, ht2, ht3]
    decide
  have hc2 : ¬ (buffer.getD (offset + 4) 0 % 256 = 73 ∧
      buffer.getD (offset + 5) 0 % 256 = 68 ∧
      buffer.getD (offset + 6) 0 % 256 = 65 ∧
      buffer.getD (offset + 7) 0 % 256 = 84) := by
    rw [ht0, ht1, ht2, ht3]
    decide
  have hc3 : buffer.getD (offset + 4) 0 % 256 = 73 ∧
      buffer.getD (offset + 5) 0 % 256 = 69 ∧
      buffer.getD (offset + 6) 0 % 256 = 78 ∧
      buffer.getD (offset + 7) 0 % 256 = 68 := by
    rw [ht0, ht1, ht2, ht3]
    decide
  conv_lhs => rw [chunkWalk]
  rw [if_pos hofflt, hread]
  simp only [hread, if_neg hc1, if_neg hc2, if_pos hc3]

/-- The complete chunk walk over the byte layout encodePNG emits:
it records the IHDR fields, collects the IDAT payload, and stops at
IEND, never consuming its fuel (buffer.length suffices). -/
lemma chunkWalk_encode (w h : ℕ) (compressed : List ℕ)
    (hw : w < 4294967296) (hh : h < 4294967296)
    (hn : compressed.length < 4294967296) :
    chunkWalk
      (pngSignature ++
        (mkChunk [0x49, 0x48, 0x44, 0x52] (be32 w ++ be32 h ++ [8, 6, 0, 0, 0]) ++
        (mkChunk [0x49, 0x44, 0x41, 0x54] compressed ++
          mkChunk [0x49, 0x45, 0x4e, 0x44] [])))
      (pngSignature ++
        (mkChunk [0x49, 0x48, 0x44, 0x52] (be32 w ++ be32 h ++ [8, 6, 0, 0, 0]) ++
        (mkChunk [0x49, 0x44, 0x41, 0x54] compressed ++
          mkChunk [0x49, 0x45, 0x4e, 0x44] []))).length 8 ⟨0, 0, 0, 0, []⟩ =
      Except.ok ⟨w, h, 8, 6, compressed⟩ := by
  set B := pngSignature ++
      (mkChunk [0x49, 0x48, 0x44, 0x52] (be32 w ++ be32 h ++ [8, 6, 0, 0, 0]) ++
      (mkChunk [0x49, 0x44, 0x41, 0x54] compressed ++
        mkChunk [0x49, 0x45, 0x4e, 0x44] [])) with hB
  have hlenB : B.length = 57 + compressed.length := by
    rw [hB]
    simp only [pngSignature, mkChunk, be32, List.length_append, List.length_cons,
      List.length_nil]
    omega
  have hbuf1 : B = pngSignature ++ (be32 13 ++ ([73, 72, 68, 82] ++
      (be32 w ++ (be32 h ++ ([8, 6, 0, 0, 0] ++
        (be32 (crc32 ([0x49, 0x48, 0x44, 0x52] ++
          (be32 w ++ be32 h ++ [8, 6, 0, 0, 0]))) ++
        (mkChunk [0x49, 0x44, 0x41, 0x54] compressed ++
          mkChunk [0x49, 0x45, 0x4e, 0x44] []))))))) := by
    rw [hB]
    simp [mkChunk, be32, List.append_assoc]
  have hbuf2 : B = (pngSignature ++
      mkChunk [0x49, 0x48, 0x44, 0x52] (be32 w ++ be32 h ++ [8, 6, 0, 0, 0])) ++
      (be32 compressed.length ++ ([73, 68, 65, 84] ++
        (compressed ++ (be32 (crc32 ([0x49, 0x44, 0x41, 0x54] ++ compressed)) ++
          mkChunk [0x49, 0x45, 0x4e, 0x44] [])))) := by
    rw [hB]
    simp [mkChunk, be32, List.append_assoc]
  have hbuf3 : B = ((pngSignature ++
      mkChunk [0x49, 0x48, 0x44, 0x52] (be32 w ++ be32 h ++ [8, 6, 0, 0, 0])) ++
      mkChunk [0x49, 0x44, 0x41, 0x54] compressed) ++
      (be32 0 ++ ([73, 69, 78, 68] ++
        be32 (crc32 ([0x49, 0x45, 0x4e, 0x44] ++ [])))) := by
    rw [hB]
    simp [mkChunk, be32, List.append_assoc]
  have hoff1 : (8 : ℕ) = pngSignature.length := by simp [pngSignature]
  have hoff2 : (8 : ℕ) + 25 = (pngSignature ++
      mkChunk [0x49, 0x48, 0x44, 0x52]
        (be32 w ++ be32 h ++ [8, 6, 0, 0, 0])).length := by
    simp only [pngSignature, mkChunk, be32, List.length_append, List.length_cons,
      List.length_nil]
  have hoff3 : (8 : ℕ) + 25 + 12 + compressed.length = ((pngSignature ++
      mkChunk [0x49, 0x48, 0x44, 0x52] (be32 w ++ be32 h ++ [8, 6, 0, 0, 0])) ++
      mkChunk [0x49, 0x44, 0x41, 0x54] compressed).length := by
    simp only [pngSignature, mkChunk, be32, List.length_append, List.length_cons,
      List.length_nil]
    omega
  rw [hlenB]
  rw [show 57 + compressed.length = 56 + compressed.length + 1 by omega]
  rw [chunkWalk_step_ihdr B pngSignature _ w h (56 + compressed.length) 8
    ⟨0, 0, 0, 0, []⟩ hbuf1 hoff1 hw hh]
  rw [show 56 + compressed.length = 55 + compressed.length + 1 by omega]
  rw [chunkWalk_step_idat B _ compressed _ (55 + compressed.length) (8 + 25) _
    hbuf2 hoff2 hn]
  rw [show 55 + compressed.length = 54 + compressed.length + 1 by omega]
  rw [chunkWalk_step_iend B _ _ (54 + compressed.length)
    (8 + 25 + 12 + compressed.length) _ hbuf3 hoff3]
  rfl

/-! ## Invariants of accepted decodes -/

lemma readU32_lt (buffer : List ℕ) (off v : ℕ) (h : readU32 buffer off = some v) :
    v < 4294967296 := by
  unfold readU32 at h
  split at h
  · injection h with h2
    omega
  · simp at h

lemma chunkWalk_ok_bounds (buffer : List ℕ) :
    ∀ (fuel offset : ℕ) (st st' : ChunkState),
      chunkWalk buffer fuel offset st = Except.ok st' →
      st.width < 4294967296 → st.height < 4294967296 →
      st'.width < 4294967296 ∧ st'.height < 4294967296 := by
  intro fuel
  induction fuel with
  | zero =>
    intro offset st st' hwalk hw hh
    rw [chunkWalk] at hwalk
    split at hwalk
    · simp at hwalk
    · injection hwalk with h2
      subst h2
      exact ⟨hw, hh⟩
  | succ fuel ih =>
    intro offset st st' hwalk hw hh
    rw [chunkWalk] at hwalk
    split at hwalk
    · split at hwalk
      · simp at hwalk
      · simp only [] at hwalk
        split at hwalk
        · split at hwalk
          · exact ih _ _ _ hwalk (readU32_lt _ _ _ (by assumption))
              (readU32_lt _ _ _ (by assumption))
          · simp at hwalk
        · split at hwalk
          · exact ih _ _ _ hwalk hw hh
          · split at hwalk
            · injection hwalk with h2
              subst h2
              exact ⟨hw, hh⟩
            · exact ih _ _ _ hwalk hw hh
    · injection hwalk with h2
      subst h2
      exact ⟨hw, hh⟩

lemma decodePixel_bytes_lt (dec : List ℕ) (w bpp ch y x : ℕ) (d : ℕ → ℕ)
    (hd : ∀ j, d j < 256) : ∀ j, decodePixel dec w bpp ch y x d j < 256 := by
  intro j
  simp only [decodePixel, Function.update_apply]
  split_ifs <;> first | exact hd j | exact Nat.mod_lt _ (by norm_num) | norm_num

lemma decodeSteps_bytes_lt (dec : List ℕ) (w bpp ch : ℕ) :
    ∀ (c s : ℕ) (b : ℕ → ℕ), (∀ j, b j < 256) → ∀ j,
      decodeSteps dec w bpp ch s c b j < 256 := by
  intro c
  induction c with
  | zero => intro s b hb j; exact hb j
  | succ c ih =>
    intro s b hb j
    rw [decodeSteps]
    exact ih (s + 1) _ (decodePixel_bytes_lt dec w bpp ch _ _ b hb) j

lemma decodeSteps_ge (dec : List ℕ) (w bpp ch : ℕ) :
    ∀ (c s : ℕ) (b : ℕ → ℕ) (j : ℕ), 4 * (s + c) ≤ j →
      decodeSteps dec w bpp ch s c b j = b j := by
  intro c
  induction c with
  | zero => intro s b j hj; rfl
  | succ c ih =>
    intro s b j hj
    rw [decodeSteps, ih (s + 1) _ j (by omega)]
    have hsw : s / w * w + s % w = s := by
      rw [Nat.mul_comm (s / w) w]
      exact Nat.div_add_mod s w
    exact decodePixel_miss dec w bpp ch (s / w) (s % w) b j (by omega)

/-- Every accepted decode has u32-bounded dimensions (they come from
DataView reads), byte-valued pixel data (Uint8Array stores), and zeros
beyond the 4 * width * height pixel bytes (the output buffer size). -/
lemma decodePNG_ok_inv (inflate : List ℕ → Option (List ℕ)) (buffer : List ℕ)
    (img : DecodedImage) (h : decodePNG inflate buffer = Except.ok img) :
    img.width < 4294967296 ∧ img.height < 4294967296 ∧
      (∀ j, img.data j < 256) ∧
      (∀ j, 4 * (img.width * img.height) ≤ j → img.data j = 0) := by
  unfold decodePNG at h
  split at h
  · simp at h
  · split at h
    · simp at h
    · split at h
      · simp at h
      · split at h
        · simp at h
        · split at h
          · simp at h
          · split at h
            · simp at h
            · rename_i _xe st hwalk _xo dec hinf
              injection h with h2
              subst h2
              dsimp only
              obtain ⟨hw, hh⟩ := chunkWalk_ok_bounds buffer _ _ _ _ hwalk
                (by norm_num) (by norm_num)
              refine ⟨hw, hh, ?_, ?_⟩
              · intro j
                rw [decodeScanlines_eq_steps]
                exact decodeSteps_bytes_lt dec st.width _ _ _ _ _
                  (fun _ => by norm_num) j
              · intro j hj
                rw [decodeScanlines_eq_steps]
                rw [decodeSteps_ge dec st.width _ _ (st.height * st.width) 0 _ j
                  (by rw [Nat.mul_comm st.height st.width]; omega)]

/-! ## The round trip: decoding what encodePNG emitted -/

lemma readU32_sig0 (rest : List ℕ) :
    readU32 (pngSignature ++ rest) 0 = some 0x89504e47 := by
  rw [show pngSignature ++ rest =
      0x89 :: 0x50 :: 0x4e :: 0x47 :: ([0x0d, 0x0a, 0x1a, 0x0a] ++ rest) by
        simp [pngSignature]]
  rw [readU32_cons]

lemma readU32_sig4 (rest : List ℕ) :
    readU32 (pngSignature ++ rest) 4 = some 0x0d0a1a0a := by
  rw [show pngSignature ++ rest =
      [0x89, 0x50, 0x4e, 0x47] ++ (0x0d :: 0x0a :: 0x1a :: 0x0a :: rest) by
        simp [pngSignature],
    show (4 : ℕ) = ([0x89, 0x50, 0x4e, 0x47] : List ℕ).length by rfl,
    readU32_start, readU32_cons]

lemma applyFilter_zero (current left up upLeft : ℕ) :
    applyFilter 0 current left up upLeft = current := rfl

/-- Unfiltering the encoder's own scanline stream (all filter bytes 0)
returns every pixel byte unchanged up to the Uint8Array truncation. -/
lemma decode_of_encode_pixel (w h : ℕ) (data : ℕ → ℕ) (hdata : ∀ j, data j < 256)
    (j : ℕ) (hj : j < 4 * (h * w)) :
    decodeScanlines (mkScanlines w h data) w h 4 4 j = data j := by
  have hw0 : 0 < w := by
    rcases Nat.eq_zero_or_pos w with h0 | h0
    · rw [h0, Nat.mul_zero] at hj
      omega
    · exact h0
  set i := j / 4 with hidef
  set k := j % 4 with hkdef
  have hk : k < 4 := by rw [hkdef]; omega
  have hji : j = 4 * i + k := by rw [hidef, hkdef]; omega
  have hiN : i < h * w := by omega
  have hy : i / w < h := (Nat.div_lt_iff_lt_mul hw0).mpr hiN
  have hx : i % w < w := Nat.mod_lt _ hw0
  have hi : i / w * w + i % w = i := by
    rw [Nat.mul_comm (i / w) w]
    exact Nat.div_add_mod i w
  rw [decodeScanlines_eq_steps]
  rw [show j = 4 * i + k from hji]
  rw [decodeSteps_char _ _ _ _ (h * w) i hiN k hk]
  rw [show 4 * i + k = (i / w * w + i % w) * 4 + k by rw [hi]; ring]
  rw [decodePixel_hit4 (mkScanlines w h data) w 4 (i / w) (i % w) k hk _]
  rw [mkScanlines_filter_byte w h data (i / w) hy, applyFilter_zero]
  rw [show i / w * (w * 4 + 1) + 1 + i % w * 4 + k =
    i / w * (w * 4 + 1) + ((i % w * 4 + k) + 1) by omega]
  rw [mkScanlines_pixel_byte w h data (i / w) (i % w) k hy hx hk]
  rw [Nat.mod_eq_of_lt (hdata _), Nat.mod_eq_of_lt (hdata _)]

/-- Beyond the pixel area the unfiltering loops never write, so the
zero-initialized output buffer stays zero. -/
lemma decode_of_encode_zero (w h : ℕ) (data : ℕ → ℕ) (j : ℕ)
    (hj : 4 * (h * w) ≤ j) :
    decodeScanlines (mkScanlines w h data) w h 4 4 j = 0 := by
  rw [decodeScanlines_eq_steps,
    decodeSteps_ge _ _ _ _ (h * w) 0 _ j (by omega)]

/-- C2: decode is a left inverse of encode on every accepted image:
for any buffer x that decodePNG accepts, re-encoding the decoded image
and decoding again returns the same width, height and pixel buffer.
The collaborator hypotheses say inflate undoes deflate on the scanline
stream in question, and that deflate emits a byte array of u32-bounded
length (the zlib contract). -/
theorem c2_roundtrip (inflate : List ℕ → Option (List ℕ))
    (deflate : List ℕ → List ℕ) (x : List ℕ) (img : DecodedImage)
    (hdec : decodePNG inflate x = Except.ok img)
    (hinfl : inflate (deflate (mkScanlines img.width img.height img.data)) =
      some (mkScanlines img.width img.height img.data))
    (hdb : ∀ b ∈ deflate (mkScanlines img.width img.height img.data), b < 256)
    (hdl : (deflate (mkScanlines img.width img.height img.data)).length <
      4294967296) :
    decodePNG inflate (encodePNG deflate img.width img.height img.data) =
      Except.ok img := by
  obtain ⟨hw, hh, hbytes, hzero⟩ := decodePNG_ok_inv inflate x img hdec
  rw [encodePNG_eq deflate img.width img.height img.data hw hh hdl hdb]
  have hwalk := chunkWalk_encode img.width img.height
    (deflate (mkScanlines img.width img.height img.data)) hw hh hdl
  unfold decodePNG
  simp only [readU32_sig0, readU32_sig4, hwalk, hinfl, pngChannels]
  norm_num
  suffices hD : decodeScanlines (mkScanlines img.width img.height img.data)
      img.width img.height 4 4 = img.data by rw [hD]
  funext j
  by_cases hj : j < 4 * (img.height * img.width)
  · exact decode_of_encode_pixel img.width img.height img.data hbytes j hj
  · rw [decode_of_encode_zero img.width img.height img.data j (by omega)]
    rw [hzero j (by rw [Nat.mul_comm img.width img.height]; omega)]

/-- C2 witness: a handcrafted 62-byte PNG (1 by 1 RGBA pixel, filter
byte 0, identity codec) is accepted, and re-encoding its decode then
decoding again returns the same image. -/
theorem c2_roundtrip_witness :
    decodePNG (fun l => some l)
      (encodePNG (fun l => l) 1 1 (decodeScanlines [0, 7, 8, 9, 10] 1 1 4 4)) =
      Except.ok ⟨1, 1, decodeScanlines [0, 7, 8, 9, 10] 1 1 4 4⟩ :=
  c2_roundtrip (fun l => some l) (fun l => l)
    [0x89, 0x50, 0x4e, 0x47, 0x0d, 0x0a, 0x1a, 0x0a,
     0, 0, 0, 13, 73, 72, 68, 82, 0, 0, 0, 1, 0, 0, 0, 1, 8, 6, 0, 0, 0, 0, 0, 0, 0,
     0, 0, 0, 5, 73, 68, 65, 84, 0, 7, 8, 9, 10, 0, 0, 0, 0,
     0, 0, 0, 0, 73, 69, 78, 68, 0, 0, 0, 0]
    ⟨1, 1, decodeScanlines [0, 7, 8, 9, 10] 1 1 4 4⟩
    (by rfl) (by rfl) (by decide) (by decide)

/-! ## FormatError comes from the signature check alone -/

lemma chunkWalk_ne_format (buffer : List ℕ) :
    ∀ (fuel offset : ℕ) (st : ChunkState),
      chunkWalk buffer fuel offset st ≠
        Except.error DecodeError.formatError := by
  intro fuel
  induction fuel with
  | zero =>
    intro offset st h
    rw [chunkWalk] at h
    split at h <;> simp at h
  | succ fuel ih =>
    intro offset st h
    rw [chunkWalk] at h
    split at h
    · split at h
      · simp at h
      · simp only [] at h
        split at h
        · split at h
          · exact ih _ _ h
          · simp at h
        · split at h
          · exact ih _ _ h
          · split at h
            · simp at h
            · exact ih _ _ h
    · simp at h

/-- C4 counterexample: a PNG whose first IDAT chunk is not preceded by
any IHDR chunk decodes without error (the source never checks that an
IHDR was seen): the walk leaves the zero initial state, and the claim
says this input fails with a FormatError. -/
theorem c4_no_ihdr_accepted :
    decodePNG (fun _ => some [])
      [0x89, 0x50, 0x4e, 0x47, 0x0d, 0x0a, 0x1a, 0x0a,
       0, 0, 0, 2, 73, 68, 65, 84, 1, 2, 0, 0, 0, 0,
       0, 0, 0, 0, 73, 69, 78, 68, 0, 0, 0, 0] =
      Except.ok ⟨0, 0, fun _ => 0⟩ := rfl

/-- C4 (amended): for byte-valued buffers holding at least 8 bytes,
decodePNG fails with a FormatError exactly when the first 8 bytes
differ from the fixed PNG signature; a missing IHDR is not detected.
(On failure only the error is returned, there is no partial image in
the Except model.) -/
theorem c4_format_error_iff (inflate : List ℕ → Option (List ℕ)) (buffer : List ℕ)
    (hlen : 8 ≤ buffer.length) (hb : ∀ b ∈ buffer, b < 256) :
    decodePNG inflate buffer = Except.error DecodeError.formatError ↔
      buffer.take 8 ≠ pngSignature := by
  rcases buffer with _ | ⟨b0, _ | ⟨b1, _ | ⟨b2, _ | ⟨b3, _ |
    ⟨b4, _ | ⟨b5, _ | ⟨b6, _ | ⟨b7, t⟩⟩⟩⟩⟩⟩⟩⟩ <;>
    try (exfalso; simp at hlen; done)
  have hb0 : b0 < 256 := hb b0 (by simp)
  have hb1 : b1 < 256 := hb b1 (by simp)
  have hb2 : b2 < 256 := hb b2 (by simp)
  have hb3 : b3 < 256 := hb b3 (by simp)
  have hb4 : b4 < 256 := hb b4 (by simp)
  have hb5 : b5 < 256 := hb b5 (by simp)
  have hb6 : b6 < 256 := hb b6 (by simp)
  have hb7 : b7 < 256 := hb b7 (by simp)
  have h0 : readU32 (b0 :: b1 :: b2 :: b3 :: b4 :: b5 :: b6 :: b7 :: t) 0 =
      some (b0 * 16777216 + b1 * 65536 + b2 * 256 + b3) := by
    rw [readU32_cons, Nat.mod_eq_of_lt hb0, Nat.mod_eq_of_lt hb1,
      Nat.mod_eq_of_lt hb2, Nat.mod_eq_of_lt hb3]
  have h4 : readU32 (b0 :: b1 :: b2 :: b3 :: b4 :: b5 :: b6 :: b7 :: t) 4 =
      some (b4 * 16777216 + b5 * 65536 + b6 * 256 + b7) := by
    rw [show (b0 :: b1 :: b2 :: b3 :: b4 :: b5 :: b6 :: b7 :: t) =
        [b0, b1, b2, b3] ++ (b4 :: b5 :: b6 :: b7 :: t) from rfl,
      show (4 : ℕ) = ([b0, b1, b2, b3] : List ℕ).length from rfl,
      readU32_start, readU32_cons, Nat.mod_eq_of_lt hb4, Nat.mod_eq_of_lt hb5,
      Nat.mod_eq_of_lt hb6, Nat.mod_eq_of_lt hb7]
  have htake : (b0 :: b1 :: b2 :: b3 :: b4 :: b5 :: b6 :: b7 :: t).take 8 =
      [b0, b1, b2, b3, b4, b5, b6, b7] := rfl
  unfold decodePNG
  simp only [h0, h4]
  rw [htake]
  by_cases hs1 : b0 * 16777216 + b1 * 65536 + b2 * 256 + b3 = 0x89504e47
  · rw [if_neg (by omega)]
    by_cases hs2 : b4 * 16777216 + b5 * 65536 + b6 * 256 + b7 = 0x0d0a1a0a
    · rw [if_neg (by omega)]
      constructor
      · intro hcw
        exfalso
        rcases hw : chunkWalk (b0 :: b1 :: b2 :: b3 :: b4 :: b5 :: b6 :: b7 :: t)
            (b0 :: b1 :: b2 :: b3 :: b4 :: b5 :: b6 :: b7 :: t).length 8
            ⟨0, 0, 0, 0, []⟩ with e | st
        · rw [hw] at hcw
          simp at hcw
          subst hcw
          exact chunkWalk_ne_format _ _ _ _ hw
        · rw [hw] at hcw
          simp only [] at hcw
          rcases hi : inflate st.idat with _ | dec <;> rw [hi] at hcw <;> simp at hcw
      · intro hne
        exfalso
        apply hne
        have he1 : b0 = 0x89 ∧ b1 = 0x50 ∧ b2 = 0x4e ∧ b3 = 0x47 := by omega
        have he2 : b4 = 0x0d ∧ b5 = 0x0a ∧ b6 = 0x1a ∧ b7 = 0x0a := by omega
        obtain ⟨e0, e1, e2, e3⟩ := he1
        obtain ⟨e4, e5, e6, e7⟩ := he2
        subst e0; subst e1; subst e2; subst e3
        subst e4; subst e5; subst e6; subst e7
        rfl
    · rw [if_pos hs2]
      constructor
      · intro _ heq
        simp [pngSignature] at heq
        obtain ⟨e0, e1, e2, e3, e4, e5, e6, e7⟩ := heq
        subst e4; subst e5; subst e6; subst e7
        exact hs2 (by norm_num)
      · intro _
        rfl
  · rw [if_pos hs1]
    constructor
    · intro _ heq
      simp [pngSignature] at heq
      obtain ⟨e0, e1, e2, e3, e4, e5, e6, e7⟩ := heq
      subst e0; subst e1; subst e2; subst e3
      exact hs1 (by norm_num)
    · intro _
      rfl

/-- C4 witness: the amended criterion on a buffer whose first 8 bytes
are not the signature. -/
theorem c4_format_error_iff_witness :
    (decodePNG (fun _ => some []) [1, 2, 3, 4, 5, 6, 7, 8] =
        Except.error DecodeError.formatError ↔
      ([1, 2, 3, 4, 5, 6, 7, 8] : List ℕ).take 8 ≠ pngSignature) :=
  c4_format_error_iff (fun _ => some []) [1, 2, 3, 4, 5, 6, 7, 8]
    (by decide) (by decide)

/-! ## CRC independence of the chunk walk -/

lemma slice_agree (b1 b2 : List ℕ) (hlen : b1.length = b2.length) (o n : ℕ)
    (h : ∀ i, o ≤ i → i < o + n → b1.getD i 0 = b2.getD i 0) :
    (b1.drop o).take n = (b2.drop o).take n := by
  apply List.ext_getElem
  · simp [hlen]
  · intro i h1 h2
    rw [List.getElem_take, List.getElem_drop, List.getElem_take, List.getElem_drop]
    have hin : i < n := by
      simp [List.length_take, List.length_drop] at h1
      omega
    have hilt : o + i < b1.length := by
      simp [List.length_take, List.length_drop] at h1
      omega
    rw [← List.getD_eq_getElem b1 0 hilt, ← List.getD_eq_getElem b2 0 (by omega)]
    exact h (o + i) (by omega) (by omega)

lemma differOnlyInCrc_spec (b1 b2 : List ℕ) (h : differOnlyInCrc b1 b2 = true) :
    b1.length = b2.length ∧ ∀ i, i ∉ crcBytes b1 → b1.getD i 0 = b2.getD i 0 := by
  unfold differOnlyInCrc at h
  rw [Bool.and_eq_true] at h
  obtain ⟨h1, h2⟩ := h
  rw [decide_eq_true_eq] at h1
  refine ⟨h1, fun i hi => ?_⟩
  by_cases hilt : i < b1.length
  · rw [List.all_eq_true] at h2
    have h3 := h2 i (List.mem_range.mpr hilt)
    rw [Bool.or_eq_true, decide_eq_true_eq, decide_eq_true_eq] at h3
    tauto
  · rw [List.getD_eq_default b1 0 (by omega), List.getD_eq_default b2 0 (by omega)]

lemma readU32_agree (b1 b2 : List ℕ) (hlen : b1.length = b2.length) (off : ℕ)
    (h : ∀ k, k < 4 → b1.getD (off + k) 0 = b2.getD (off + k) 0) :
    readU32 b1 off = readU32 b2 off := by
  unfold readU32
  rw [hlen]
  split
  · have h0 := h 0 (by norm_num)
    have h1 := h 1 (by norm_num)
    have h2 := h 2 (by norm_num)
    have h3 := h 3 (by norm_num)
    rw [Nat.add_zero] at h0
    rw [h0, h1, h2, h3]
  · rfl

lemma crcOffsets_lower (buffer : List ℕ) :
    ∀ (fuel offset : ℕ) (e : ℕ), e ∈ crcOffsets buffer fuel offset →
      offset + 8 ≤ e := by
  intro fuel
  induction fuel with
  | zero =>
    intro offset e he
    simp [crcOffsets] at he
  | succ fuel ih =>
    intro offset e he
    rw [crcOffsets] at he
    split at he
    · split at he
      · simp at he
      · simp only [] at he
        split at he
        · simp at he
          omega
        · rw [List.mem_cons] at he
          rcases he with he | he
          · omega
          · have := ih _ _ he
            omega
    · simp at he

lemma chunkWalk_succ_some (buffer : List ℕ) (fuel offset : ℕ) (st : ChunkState)
    (len : ℕ) (hofflt : offset < buffer.length)
    (hread : readU32 buffer offset = some len) :
    chunkWalk buffer (fuel + 1) offset st =
      (if buffer.getD (offset + 4) 0 % 256 = 73 ∧ buffer.getD (offset + 5) 0 % 256 = 72 ∧
          buffer.getD (offset + 6) 0 % 256 = 68 ∧
          buffer.getD (offset + 7) 0 % 256 = 82 then
        match readU32 buffer (offset + 8), readU32 buffer (offset + 12) with
        | some w, some h =>
          chunkWalk buffer fuel (offset + 12 + len)
            ⟨w, h, buffer.getD (offset + 16) 0 % 256,
              buffer.getD (offset + 17) 0 % 256, st.idat⟩
        | _, _ => Except.error DecodeError.rangeError
      else if buffer.getD (offset + 4) 0 % 256 = 73 ∧
          buffer.getD (offset + 5) 0 % 256 = 68 ∧
          buffer.getD (offset + 6) 0 % 256 = 65 ∧
          buffer.getD (offset + 7) 0 % 256 = 84 then
        chunkWalk buffer fuel (offset + 12 + len)
          ⟨st.width, st.height, st.bitDepth, st.colorType,
            st.idat ++ (buffer.drop (offset + 8)).take len⟩
      else if buffer.getD (offset + 4) 0 % 256 = 73 ∧
          buffer.getD (offset + 5) 0 % 256 = 69 ∧
          buffer.getD (offset + 6) 0 % 256 = 78 ∧
          buffer.getD (offset + 7) 0 % 256 = 68 then
        Except.ok st
      else
        chunkWalk buffer fuel (offset + 12 + len) st) := by
  rw [chunkWalk, if_pos hofflt, hread]

lemma crcOffsets_succ_some (buffer : List ℕ) (fuel offset len : ℕ)
    (hofflt : offset < buffer.length)
    (hread : readU32 buffer offset = some len) :
    crcOffsets buffer (fuel + 1) offset =
      (if buffer.getD (offset + 4) 0 % 256 = 73 ∧ buffer.getD (offset + 5) 0 % 256 = 69 ∧
          buffer.getD (offset + 6) 0 % 256 = 78 ∧
          buffer.getD (offset + 7) 0 % 256 = 68 then
        [offset + 8 + len]
      else
        (offset + 8 + len) :: crcOffsets buffer fuel (offset + 12 + len)) := by
  rw [crcOffsets, if_pos hofflt, hread]

lemma ihdrLengthsOK_succ_some (buffer : List ℕ) (fuel offset len : ℕ)
    (hofflt : offset < buffer.length)
    (hread : readU32 buffer offset = some len) :
    ihdrLengthsOK buffer (fuel + 1) offset =
      (if buffer.getD (offset + 4) 0 % 256 = 73 ∧ buffer.getD (offset + 5) 0 % 256 = 72 ∧
          buffer.getD (offset + 6) 0 % 256 = 68 ∧
          buffer.getD (offset + 7) 0 % 256 = 82 then
        decide (10 ≤ len) && ihdrLengthsOK buffer fuel (offset + 12 + len)
      else if buffer.getD (offset + 4) 0 % 256 = 73 ∧
          buffer.getD (offset + 5) 0 % 256 = 69 ∧
          buffer.getD (offset + 6) 0 % 256 = 78 ∧
          buffer.getD (offset + 7) 0 % 256 = 68 then
        true
      else
        ihdrLengthsOK buffer fuel (offset + 12 + len)) := by
  rw [ihdrLengthsOK, if_pos hofflt, hread]

/-- The chunk walk reads no CRC byte: two equal-length buffers that
agree outside the CRC fields of the first walk in the walked region
produce identical walks, provided every IHDR chunk declares length at
least 10 (shorter declared lengths make the fixed-offset IHDR field
reads fall into the CRC field, see the counterexample below). -/
lemma chunkWalk_agree (b1 b2 : List ℕ) (hlen : b1.length = b2.length)
    (hagree : ∀ i, i ∉ crcBytes b1 → b1.getD i 0 = b2.getD i 0) :
    ∀ (fuel offset : ℕ) (st : ChunkState),
      (∀ e ∈ crcBytes b1, e < offset ∨
        e ∈ (crcOffsets b1 fuel offset).flatMap
          (fun o => [o, o + 1, o + 2, o + 3])) →
      ihdrLengthsOK b1 fuel offset = true →
      chunkWalk b1 fuel offset st = chunkWalk b2 fuel offset st := by
  intro fuel
  induction fuel with
  | zero =>
    intro offset st _ _
    rw [chunkWalk, chunkWalk, ← hlen]
  | succ fuel ih =>
    intro offset st hsub hihdr
    by_cases hofflt : offset < b1.length
    case neg =>
      rw [chunkWalk, chunkWalk, ← hlen, if_neg hofflt, if_neg hofflt]
    case pos =>
      have hofflt2 : offset < b2.length := by omega
      have hnotcrc8 : ∀ p, offset ≤ p → p < offset + 8 → p ∉ crcBytes b1 := by
        intro p hp1 hp2 hmem
        rcases hsub p hmem with hca | hca
        · omega
        · simp only [List.mem_flatMap] at hca
          obtain ⟨o, ho, hpo⟩ := hca
          have hol := crcOffsets_lower b1 _ _ o ho
          simp at hpo
          omega
      have hag8 : ∀ k, k < 8 → b1.getD (offset + k) 0 = b2.getD (offset + k) 0 :=
        fun k hk => hagree _ (hnotcrc8 _ (by omega) (by omega))
      have hru : readU32 b1 offset = readU32 b2 offset :=
        readU32_agree b1 b2 hlen offset (fun k hk => hag8 k (by omega))
      rcases hread : readU32 b1 offset with _ | len
      · rw [chunkWalk, chunkWalk, ← hlen, if_pos hofflt, if_pos hofflt, ← hru, hread]
      · have hread2 : readU32 b2 offset = some len := by rw [← hru, hread]
        rw [chunkWalk_succ_some b1 fuel offset st len hofflt hread,
          chunkWalk_succ_some b2 fuel offset st len hofflt2 hread2]
        have ht4 : b2.getD (offset + 4) 0 = b1.getD (offset + 4) 0 :=
          (hag8 4 (by omega)).symm
        have ht5 : b2.getD (offset + 5) 0 = b1.getD (offset + 5) 0 :=
          (hag8 5 (by omega)).symm
        have ht6 : b2.getD (offset + 6) 0 = b1.getD (offset + 6) 0 :=
          (hag8 6 (by omega)).symm
        have ht7 : b2.getD (offset + 7) 0 = b1.getD (offset + 7) 0 :=
          (hag8 7 (by omega)).symm
        rw [ht4, ht5, ht6, ht7]
        rw [ihdrLengthsOK_succ_some b1 fuel offset len hofflt hread] at hihdr
        by_cases hC1 : b1.getD (offset + 4) 0 % 256 = 73 ∧
            b1.getD (offset + 5) 0 % 256 = 72 ∧
            b1.getD (offset + 6) 0 % 256 = 68 ∧ b1.getD (offset + 7) 0 % 256 = 82
        · rw [if_pos hC1, if_pos hC1]
          rw [if_pos hC1] at hihdr
          rw [Bool.and_eq_true, decide_eq_true_eq] at hihdr
          obtain ⟨h10, hihdr2⟩ := hihdr
          have hiend : ¬ (b1.getD (offset + 4) 0 % 256 = 73 ∧
              b1.getD (offset + 5) 0 % 256 = 69 ∧
              b1.getD (offset + 6) 0 % 256 = 78 ∧
              b1.getD (offset + 7) 0 % 256 = 68) := by
            obtain ⟨-, hx, -, -⟩ := hC1
            intro hy
            obtain ⟨-, hy2, -, -⟩ := hy
            omega
          have hoffs : crcOffsets b1 (fuel + 1) offset =
              (offset + 8 + len) :: crcOffsets b1 fuel (offset + 12 + len) := by
            rw [crcOffsets_succ_some b1 fuel offset len hofflt hread, if_neg hiend]
          have hsub2 : ∀ e ∈ crcBytes b1, e < offset + 12 + len ∨
              e ∈ (crcOffsets b1 fuel (offset + 12 + len)).flatMap
                (fun o => [o, o + 1, o + 2, o + 3]) := by
            intro e he
            rcases hsub e he with hca | hca
            · left; omega
            · rw [hoffs] at hca
              simp only [List.flatMap_cons, List.mem_append] at hca
              rcases hca with hca | hca
              · left
                simp at hca
                omega
              · right; exact hca
          have hnotcrc18 : ∀ p, offset ≤ p → p < offset + 18 → p ∉ crcBytes b1 := by
            intro p hp1 hp2 hmem
            rcases hsub p hmem with hca | hca
            · omega
            · rw [hoffs] at hca
              simp only [List.flatMap_cons, List.mem_append, List.mem_flatMap] at hca
              rcases hca with hca | hca
              · simp at hca
                omega
              · obtain ⟨o, ho, hpo⟩ := hca
                have hol := crcOffsets_lower b1 _ _ o ho
                simp at hpo
                omega
          have hag18 : ∀ k, k < 18 → b1.getD (offset + k) 0 = b2.getD (offset + k) 0 :=
            fun k hk => hagree _ (hnotcrc18 _ (by omega) (by omega))
          have hr8 : readU32 b2 (offset + 8) = readU32 b1 (offset + 8) := by
            refine (readU32_agree b1 b2 hlen (offset + 8) (fun k hk => ?_)).symm
            rw [show offset + 8 + k = offset + (8 + k) by omega]
            exact hag18 (8 + k) (by omega)
          have hr12 : readU32 b2 (offset + 12) = readU32 b1 (offset + 12) := by
            refine (readU32_agree b1 b2 hlen (offset + 12) (fun k hk => ?_)).symm
            rw [show offset + 12 + k = offset + (12 + k) by omega]
            exact hag18 (12 + k) (by omega)
          have h16 : b2.getD (offset + 16) 0 = b1.getD (offset + 16) 0 :=
            (hag18 16 (by omega)).symm
          have h17 : b2.getD (offset + 17) 0 = b1.getD (offset + 17) 0 :=
            (hag18 17 (by omega)).symm
          rw [hr8, hr12, h16, h17]
          rcases hw8 : readU32 b1 (offset + 8) with _ | w
          · rfl
          · rcases hw12 : readU32 b1 (offset + 12) with _ | hv
            · rfl
            · exact ih (offset + 12 + len) _ hsub2 hihdr2
        · rw [if_neg hC1, if_neg hC1]
          rw [if_neg hC1] at hihdr
          by_cases hC2 : b1.getD (offset + 4) 0 % 256 = 73 ∧
              b1.getD (offset + 5) 0 % 256 = 68 ∧
              b1.getD (offset + 6) 0 % 256 = 65 ∧ b1.getD (offset + 7) 0 % 256 = 84
          · rw [if_pos hC2, if_pos hC2]
            have hiend : ¬ (b1.getD (offset + 4) 0 % 256 = 73 ∧
                b1.getD (offset + 5) 0 % 256 = 69 ∧
                b1.getD (offset + 6) 0 % 256 = 78 ∧
                b1.getD (offset + 7) 0 % 256 = 68) := by
              obtain ⟨-, hx, -, -⟩ := hC2
              intro hy
              obtain ⟨-, hy2, -, -⟩ := hy
              omega
            rw [if_neg hiend] at hihdr
            have hoffs : crcOffsets b1 (fuel + 1) offset =
                (offset + 8 + len) :: crcOffsets b1 fuel (offset + 12 + len) := by
              rw [crcOffsets_succ_some b1 fuel offset len hofflt hread, if_neg hiend]
            have hsub2 : ∀ e ∈ crcBytes b1, e < offset + 12 + len ∨
                e ∈ (crcOffsets b1 fuel (offset + 12 + len)).flatMap
                  (fun o => [o, o + 1, o + 2, o + 3]) := by
              intro e he
              rcases hsub e he with hca | hca
              · left; omega
              · rw [hoffs] at hca
                simp only [List.flatMap_cons, List.mem_append] at hca
                rcases hca with hca | hca
                · left
                  simp at hca
                  omega
                · right; exact hca
            have hnotcrcD : ∀ p, offset ≤ p → p < offset + 8 + len →
                p ∉ crcBytes b1 := by
              intro p hp1 hp2 hmem
              rcases hsub p hmem with hca | hca
              · omega
              · rw [hoffs] at hca
                simp only [List.flatMap_cons, List.mem_append, List.mem_flatMap] at hca
                rcases hca with hca | hca
                · simp at hca
                  omega
                · obtain ⟨o, ho, hpo⟩ := hca
                  have hol := crcOffsets_lower b1 _ _ o ho
                  simp at hpo
                  omega
            have hslice : (b1.drop (offset + 8)).take len =
                (b2.drop (offset + 8)).take len :=
              slice_agree b1 b2 hlen (offset + 8) len
                (fun i hi1 hi2 => hagree i (hnotcrcD i (by omega) (by omega)))
            rw [hslice]
            exact ih (offset + 12 + len) _ hsub2 hihdr
          · rw [if_neg hC2, if_neg hC2]
            by_cases hC3 : b1.getD (offset + 4) 0 % 256 = 73 ∧
                b1.getD (offset + 5) 0 % 256 = 69 ∧
                b1.getD (offset + 6) 0 % 256 = 78 ∧ b1.getD (offset + 7) 0 % 256 = 68
            · rw [if_pos hC3, if_pos hC3]
            · rw [if_neg hC3, if_neg hC3]
              rw [if_neg hC3] at hihdr
              have hoffs : crcOffsets b1 (fuel + 1) offset =
                  (offset + 8 + len) :: crcOffsets b1 fuel (offset + 12 + len) := by
                rw [crcOffsets_succ_some b1 fuel offset len hofflt hread, if_neg hC3]
              have hsub2 : ∀ e ∈ crcBytes b1, e < offset + 12 + len ∨
                  e ∈ (crcOffsets b1 fuel (offset + 12 + len)).flatMap
                    (fun o => [o, o + 1, o + 2, o + 3]) := by
                intro e he
                rcases hsub e he with hca | hca
                · left; omega
                · rw [hoffs] at hca
                  simp only [List.flatMap_cons, List.mem_append] at hca
                  rcases hca with hca | hca
                  · left
                    simp at hca
                    omega
                  · right; exact hca
              exact ih (offset + 12 + len) _ hsub2 hihdr

/-- C9 counterexample: when an IHDR chunk declares length 0, the
fixed-offset width read falls into its CRC field, so two buffers that
differ only in that CRC byte decode to different widths: the claim
that decode never reads CRC bytes fails on such inputs.  The IDAT
chunk carries 78 9C 03 00 00 00 00 01, a valid zlib stream deflating
the empty string, and inflate is instantiated with its RFC-conforming
value on that stream (the only one the walk feeds it; every other
input is rejected), so the divergence is the real program's. -/
theorem c9_crc_affects_decode :
    differOnlyInCrc
        [0x89, 0x50, 0x4e, 0x47, 0x0d, 0x0a, 0x1a, 0x0a,
         0, 0, 0, 0, 73, 72, 68, 82, 0, 0, 0, 1,
         0, 0, 0, 8, 73, 68, 65, 84, 120, 156, 3, 0, 0, 0, 0, 1, 0, 0, 0, 0,
         0, 0, 0, 0, 73, 69, 78, 68, 0, 0, 0, 0]
        [0x89, 0x50, 0x4e, 0x47, 0x0d, 0x0a, 0x1a, 0x0a,
         0, 0, 0, 0, 73, 72, 68, 82, 0, 0, 0, 2,
         0, 0, 0, 8, 73, 68, 65, 84, 120, 156, 3, 0, 0, 0, 0, 1, 0, 0, 0, 0,
         0, 0, 0, 0, 73, 69, 78, 68, 0, 0, 0, 0] = true ∧
      decodePNG
          (fun l => if l = [120, 156, 3, 0, 0, 0, 0, 1] then some [] else none)
          [0x89, 0x50, 0x4e, 0x47, 0x0d, 0x0a, 0x1a, 0x0a,
           0, 0, 0, 0, 73, 72, 68, 82, 0, 0, 0, 1,
           0, 0, 0, 8, 73, 68, 65, 84, 120, 156, 3, 0, 0, 0, 0, 1, 0, 0, 0, 0,
           0, 0, 0, 0, 73, 69, 78, 68, 0, 0, 0, 0] ≠
        decodePNG
          (fun l => if l = [120, 156, 3, 0, 0, 0, 0, 1] then some [] else none)
          [0x89, 0x50, 0x4e, 0x47, 0x0d, 0x0a, 0x1a, 0x0a,
           0, 0, 0, 0, 73, 72, 68, 82, 0, 0, 0, 2,
           0, 0, 0, 8, 73, 68, 65, 84, 120, 156, 3, 0, 0, 0, 0, 1, 0, 0, 0, 0,
           0, 0, 0, 0, 73, 69, 78, 68, 0, 0, 0, 0] := by
  constructor
  · decide
  · intro h
    have h1 : decodePNG
        (fun l => if l = [120, 156, 3, 0, 0, 0, 0, 1] then some [] else none)
        [0x89, 0x50, 0x4e, 0x47, 0x0d, 0x0a, 0x1a, 0x0a,
         0, 0, 0, 0, 73, 72, 68, 82, 0, 0, 0, 1,
         0, 0, 0, 8, 73, 68, 65, 84, 120, 156, 3, 0, 0, 0, 0, 1, 0, 0, 0, 0,
         0, 0, 0, 0, 73, 69, 78, 68, 0, 0, 0, 0] =
        Except.ok ⟨1, 8, decodeScanlines [] 1 8 9 1⟩ := rfl
    have h2 : decodePNG
        (fun l => if l = [120, 156, 3, 0, 0, 0, 0, 1] then some [] else none)
        [0x89, 0x50, 0x4e, 0x47, 0x0d, 0x0a, 0x1a, 0x0a,
         0, 0, 0, 0, 73, 72, 68, 82, 0, 0, 0, 2,
         0, 0, 0, 8, 73, 68, 65, 84, 120, 156, 3, 0, 0, 0, 0, 1, 0, 0, 0, 0,
         0, 0, 0, 0, 73, 69, 78, 68, 0, 0, 0, 0] =
        Except.ok ⟨2, 8, decodeScanlines [] 2 8 9 1⟩ := rfl
    rw [h1, h2] at h
    injection h with h3
    exact absurd (congrArg DecodedImage.width h3) (by decide)

/-- C9 (amended): decode reads no CRC byte as long as every IHDR chunk
met by the walk declares length at least 10 (the layout every real PNG
has): two buffers differing only in CRC fields then decode to the very
same result, error or image. -/
theorem c9_crc_independence (inflate : List ℕ → Option (List ℕ)) (b1 b2 : List ℕ)
    (hdiff : differOnlyInCrc b1 b2 = true)
    (hihdr : ihdrLengthsOK b1 b1.length 8 = true) :
    decodePNG inflate b1 = decodePNG inflate b2 := by
  obtain ⟨hlen, hagree⟩ := differOnlyInCrc_spec b1 b2 hdiff
  have hnotcrc : ∀ p, p < 8 → p ∉ crcBytes b1 := by
    intro p hp hmem
    unfold crcBytes at hmem
    simp only [List.mem_flatMap] at hmem
    obtain ⟨o, ho, hpo⟩ := hmem
    have := crcOffsets_lower b1 _ _ o ho
    simp at hpo
    omega
  have h0 : readU32 b2 0 = readU32 b1 0 := by
    refine (readU32_agree b1 b2 hlen 0 (fun k hk => ?_)).symm
    rw [Nat.zero_add]
    exact hagree k (hnotcrc k (by omega))
  have h4 : readU32 b2 4 = readU32 b1 4 :=
    (readU32_agree b1 b2 hlen 4
      (fun k hk => hagree (4 + k) (hnotcrc _ (by omega)))).symm
  have hwalk : chunkWalk b1 b1.length 8 ⟨0, 0, 0, 0, []⟩ =
      chunkWalk b2 b2.length 8 ⟨0, 0, 0, 0, []⟩ := by
    rw [← hlen]
    exact chunkWalk_agree b1 b2 hlen hagree b1.length 8 _
      (fun e he => Or.inr he) hihdr
  unfold decodePNG
  rw [h0, h4, hwalk]

/-- C9 witness: two copies of a valid 62-byte PNG whose IHDR CRC
fields differ decode identically. -/
theorem c9_crc_independence_witness :
    decodePNG (fun _ => some [])
        [0x89, 0x50, 0x4e, 0x47, 0x0d, 0x0a, 0x1a, 0x0a,
         0, 0, 0, 13, 73, 72, 68, 82, 0, 0, 0, 1, 0, 0, 0, 1, 8, 6, 0, 0, 0,
         0, 0, 0, 0,
         0, 0, 0, 5, 73, 68, 65, 84, 0, 7, 8, 9, 10, 0, 0, 0, 0,
         0, 0, 0, 0, 73, 69, 78, 68, 0, 0, 0, 0] =
      decodePNG (fun _ => some [])
        [0x89, 0x50, 0x4e, 0x47, 0x0d, 0x0a, 0x1a, 0x0a,
         0, 0, 0, 13, 73, 72, 68, 82, 0, 0, 0, 1, 0, 0, 0, 1, 8, 6, 0, 0, 0,
         9, 9, 9, 9,
         0, 0, 0, 5, 73, 68, 65, 84, 0, 7, 8, 9, 10, 0, 0, 0, 0,
         0, 0, 0, 0, 73, 69, 78, 68, 0, 0, 0, 0] :=
  c9_crc_independence (fun _ => some [])
    [0x89, 0x50, 0x4e, 0x47, 0x0d, 0x0a, 0x1a, 0x0a,
     0, 0, 0, 13, 73, 72, 68, 82, 0, 0, 0, 1, 0, 0, 0, 1, 8, 6, 0, 0, 0,
     0, 0, 0, 0,
     0, 0, 0, 5, 73, 68, 65, 84, 0, 7, 8, 9, 10, 0, 0, 0, 0,
     0, 0, 0, 0, 73, 69, 78, 68, 0, 0, 0, 0]
    [0x89, 0x50, 0x4e, 0x47, 0x0d, 0x0a, 0x1a, 0x0a,
     0, 0, 0, 13, 73, 72, 68, 82, 0, 0, 0, 1, 0, 0, 0, 1, 8, 6, 0, 0, 0,
     9, 9, 9, 9,
     0, 0, 0, 5, 73, 68, 65, 84, 0, 7, 8, 9, 10, 0, 0, 0, 0,
     0, 0, 0, 0, 73, 69, 78, 68, 0, 0, 0, 0]
    (by decide) (by decide)

end WRem
